import Mathlib

/-!
# Verification of the fintual-challenge monthly-variation pipeline

This file embeds the data-aggregation core of the repository
(`src/core/utils/financial.utils.ts` and the `FinancialService` methods) as
executable Lean definitions and proves the stated properties about them.

Modelling conventions:
* JS numbers are modelled as rationals (`ℚ`); `x.toFixed(2)` followed by
  `parseFloat` is modelled by exact rounding to two decimals (`round2`).
* A possibly-`undefined` JS value of type `T` is modelled as `Option T`;
  `a || b` on strings and `a ?? b` on numbers are modelled by `jsOrStr` and
  `jsNullish`.
* `new Date(s).getTime()` is modelled by `dateOrd`, which is defined for
  zero-padded ISO `YYYY-MM-DD` strings and is order-isomorphic to the epoch
  timestamp there; every other string is modelled as an invalid date
  (`none`, the analogue of `NaN`).
* `Array.prototype.sort` with a comparator is modelled by a stable insertion
  sort; a comparator result of `NaN` is treated as "equal", matching the
  engine behaviour relied on by the code.
* The JS `Map` with insertion-ordered keys is modelled as an association
  list ordered by first insertion.
-/

/-- JS `a || b` for possibly-undefined strings: the empty string is falsy. -/
def jsOrStr (a b : Option String) : Option String :=
  match a with
  | some s => if s = "" then b else some s
  | none => b

/-- JS `a ?? b` for possibly-undefined/null numbers: `0` is kept. -/
def jsNullish (a b : Option ℚ) : Option ℚ :=
  match a with
  | some x => some x
  | none => b

/-- JS `p || 0` applied to a possibly-undefined number. -/
def jsOrZeroOpt (p : Option ℚ) : ℚ :=
  match p with
  | some x => if x = 0 then 0 else x
  | none => 0

/-- JS `v || 0` applied to a number (only `0` itself is falsy here). -/
def jsOrZero (v : ℚ) : ℚ :=
  if v = 0 then 0 else v

/-- Is `c` a decimal digit (`'0'` through `'9'`)? -/
def isDig (c : Char) : Bool :=
  decide ('0' ≤ c) && decide (c ≤ '9')

/-- Numeric value of a digit character. -/
def digToNat (c : Char) : Nat := c.toNat - 48

/-- JS string `<` on UTF-16 code units, on the underlying character lists
(all characters used by the program are in the BMP, where code-unit order
coincides with code-point order). -/
def charListLt : List Char → List Char → Bool
  | [], [] => false
  | [], _ :: _ => true
  | _ :: _, [] => false
  | a :: as, b :: bs => if a = b then charListLt as bs else decide (a < b)

/-- JS default ascending string comparison `a <= b` used by `Array.sort()`. -/
def strLeB (a b : String) : Bool := !(charListLt b.data a.data)

/-- JS `s.split('-')` (auxiliary recursion over the characters;
`acc` holds the current chunk reversed). -/
def splitDashAux : List Char → List Char → List (List Char)
  | [], acc => [acc.reverse]
  | c :: cs, acc =>
    if c = '-' then acc.reverse :: splitDashAux cs []
    else splitDashAux cs (c :: acc)

/-- JS `s.split('-')`. -/
def splitDash (s : String) : List String :=
  (splitDashAux s.data []).map String.mk

/-- Value of the maximal digit prefix, accumulated positionally. -/
def digitsPrefixVal : List Char → Nat → Nat
  | [], acc => acc
  | c :: cs, acc => if isDig c then digitsPrefixVal cs (10 * acc + digToNat c) else acc

/-- Value of the maximal digit prefix; `none` when the first character is
not a digit (JS `parseInt` then yields `NaN`). -/
def digitsVal : List Char → Option Nat
  | [] => none
  | c :: cs => if isDig c then some (digitsPrefixVal (c :: cs) 0) else none

/-- JS `parseInt(s)` (base 10): skip whitespace, optional sign, maximal
digit prefix; `none` models `NaN`.  (The hexadecimal `0x` form of
`parseInt` is not modelled; no input of this program uses it.) -/
def parseIntJS (s : String) : Option Int :=
  match s.data.dropWhile (fun c => c = ' ' ∨ c = '\t' ∨ c = '\n' ∨ c = '\r') with
  | [] => none
  | c :: rest =>
    if c = '-' then (digitsVal rest).map (fun n => -(n : Int))
    else if c = '+' then (digitsVal rest).map (fun n => (n : Int))
    else (digitsVal (c :: rest)).map (fun n => (n : Int))

/-- Leap-year test (proleptic Gregorian, as used by JS `Date`). -/
def isLeapYear (y : Nat) : Bool :=
  (y % 4 = 0 && y % 100 ≠ 0) || y % 400 = 0

/-- Number of days of month `m` of year `y`. -/
def daysInMonth (y m : Nat) : Nat :=
  if m = 2 then (if isLeapYear y then 29 else 28)
  else if m = 4 ∨ m = 6 ∨ m = 9 ∨ m = 11 then 30
  else 31

/-- Does `s` have the zero-padded calendar form `YYYY-MM-DD` accepted by the
ISO date-string grammar of JS `Date` (month 1–12, day within the month)? -/
def validISO (s : String) : Bool :=
  match s.data with
  | [y1, y2, y3, y4, h1, m1, m2, h2, d1, d2] =>
    isDig y1 && isDig y2 && isDig y3 && isDig y4 && decide (h1 = '-') &&
    isDig m1 && isDig m2 && decide (h2 = '-') && isDig d1 && isDig d2 &&
    (let y := ((digToNat y1 * 10 + digToNat y2) * 10 + digToNat y3) * 10 + digToNat y4
     let m := 10 * digToNat m1 + digToNat m2
     let d := 10 * digToNat d1 + digToNat d2
     decide (1 ≤ m) && decide (m ≤ 12) && decide (1 ≤ d) && decide (d ≤ daysInMonth y m))
  | _ => false

/-- Ordinal encoding `y * 10000 + m * 100 + d` of a `YYYY-MM-DD` string;
on valid ISO dates this is order-isomorphic to the epoch timestamp. -/
def dateNum (s : String) : Nat :=
  match s.data with
  | [y1, y2, y3, y4, _, m1, m2, _, d1, d2] =>
    (((digToNat y1 * 10 + digToNat y2) * 10 + digToNat y3) * 10 + digToNat y4) * 10000 +
      (10 * digToNat m1 + digToNat m2) * 100 + (10 * digToNat d1 + digToNat d2)
  | _ => 0

/-- Model of `new Date(s).getTime()`: `some` of an order-isomorphic ordinal
for valid zero-padded ISO dates, `none` (the analogue of `NaN`) otherwise. -/
def dateOrd (s : String) : Option Nat :=
  if validISO s then some (dateNum s) else none

/-- Model of `x.toFixed(2)` followed by `parseFloat`: round to two decimal
places (ties toward positive infinity, as in the `toFixed` specification).
Written with `Int.ediv` so that it evaluates by kernel reduction;
`round2_eq_round` identifies it with the rounding function of Mathlib. -/
def round2 (x : ℚ) : ℚ := (Int.ediv (x * 100 + 1 / 2).num (x * 100 + 1 / 2).den : ℚ) / 100

/-- The `attributes` envelope of an API record
(`financial.models.ts`, interface `DayData`); `extra` stands for the many
additional attribute fields, which the pipeline never reads. -/
structure RawAttrs where
  date : Option String := none
  price : Option ℚ := none
  extra : List String := []
deriving DecidableEq, Repr, Inhabited

/-- A raw daily record (`financial.models.ts`, interface `DayData`):
either flat `date`/`price` fields, or data nested in `attributes`. -/
structure DayData where
  date : Option String := none
  price : Option ℚ := none
  attributes : Option RawAttrs := none
deriving DecidableEq, Repr, Inhabited

/-- A computed monthly variation
(`financial.models.ts`, interface `MonthlyVariation`). -/
structure MonthlyVariation where
  month : String
  year : Int
  variation : ℚ
  firstDayPrice : ℚ
  lastDayPrice : ℚ
deriving DecidableEq, Repr, Inhabited

/-- Translation of `day.date || day.attributes?.date`
(`financial.utils.ts` line 119, `financial.service.ts` lines 42–43). -/
def jsDateOf (day : DayData) : Option String :=
  jsOrStr day.date (day.attributes.bind RawAttrs.date)

/-- Translation of `day.price ?? day.attributes?.price`
(`financial.utils.ts` line 120, `financial.service.ts` lines 42–43). -/
def jsPriceOf (day : DayData) : Option ℚ :=
  jsNullish day.price (day.attributes.bind RawAttrs.price)

/-- Translation of `getMonthName` (`financial.utils.ts`): month abbreviation with the
`'Desconocido'` fallback of the array-index lookup. -/
def getMonthName (monthNumber : Int) : String :=
  if monthNumber = 1 then "Ene" else if monthNumber = 2 then "Feb"
  else if monthNumber = 3 then "Mar" else if monthNumber = 4 then "Abr"
  else if monthNumber = 5 then "May" else if monthNumber = 6 then "Jun"
  else if monthNumber = 7 then "Jul" else if monthNumber = 8 then "Ago"
  else if monthNumber = 9 then "Sep" else if monthNumber = 10 then "Oct"
  else if monthNumber = 11 then "Nov" else if monthNumber = 12 then "Dic"
  else "Desconocido"

/-- Translation of `FinancialService.getMonthNumber`: abbreviation back to month number,
with the `|| 1` fallback for unknown names. -/
def getMonthNumber (monthName : String) : Int :=
  if monthName = "Ene" then 1 else if monthName = "Feb" then 2
  else if monthName = "Mar" then 3 else if monthName = "Abr" then 4
  else if monthName = "May" then 5 else if monthName = "Jun" then 6
  else if monthName = "Jul" then 7 else if monthName = "Ago" then 8
  else if monthName = "Sep" then 9 else if monthName = "Oct" then 10
  else if monthName = "Nov" then 11 else if monthName = "Dic" then 12
  else 1

/-- One step of the JS `Map` update
`if (!has(k)) set(k, []); get(k).push(v)`: association list with keys in
first-insertion order and buckets in push order. -/
def insertBucket (m : List (String × List DayData)) (k : String) (v : DayData) :
    List (String × List DayData) :=
  match m with
  | [] => [(k, [v])]
  | (k2, vs) :: rest =>
    if k2 = k then (k2, vs ++ [v]) :: rest else (k2, vs) :: insertBucket rest k v

/-- Translation of `monthlyData.get(monthKey)`. -/
def lookupBucket (m : List (String × List DayData)) (k : String) : Option (List DayData) :=
  match m with
  | [] => none
  | (k2, vs) :: rest => if k2 = k then some vs else lookupBucket rest k

/-- The `data.forEach` body of `groupDataByMonth`
(`financial.utils.ts` lines 113–155): keep records with a truthy string
date, bucket them under the `"YYYY-MM"` key taken from the first two
dash-separated components, and store a fresh canonical
`{date, price: price || 0}` record. -/
def groupStep (monthlyData : List (String × List DayData)) (day : DayData) :
    List (String × List DayData) :=
  match jsDateOf day with
  | none => monthlyData
  | some date =>
    if date = "" then monthlyData
    else
      let price := jsPriceOf day
      match splitDash date with
      | year :: month :: _ =>
        insertBucket monthlyData (year ++ "-" ++ month)
          { date := some date, price := some (jsOrZeroOpt price), attributes := none }
      | _ => monthlyData

/-- Translation of `groupDataByMonth` (`financial.utils.ts` lines 108–161).
(The `console.log` calls of the source are I/O-free diagnostics and are
not modelled.) -/
def groupDataByMonth (data : List DayData) : List (String × List DayData) :=
  data.foldl groupStep []

/-- The date key `a.date || a.attributes?.date || ''` used by the
chronological sort comparator (`financial.utils.ts` lines 168–169). -/
def sortDateKey (a : DayData) : String := (jsDateOf a).getD ""

/-- The comparator `new Date(dateA).getTime() - new Date(dateB).getTime()`
as a "may stay before" relation: `true` iff the comparator does not require
a swap (a `NaN` comparison result is treated as "equal"). -/
def chronoLe (a b : DayData) : Bool :=
  match dateOrd (sortDateKey a), dateOrd (sortDateKey b) with
  | some x, some y => decide (x ≤ y)
  | _, _ => true

/-- Translation of `sortMonthDataChronologically` (`financial.utils.ts` lines 166–172):
stable sort of a month bucket by parsed date. -/
def sortMonthDataChronologically (monthData : List DayData) : List DayData :=
  List.insertionSort (fun a b => chronoLe a b = true) monthData

/-- The body of the per-month-key loop of
`FinancialService.calculateMonthlyVariation` (lines 33–69): the emitted
variation for one month key, or `none` when the month is skipped. -/
def emitKey (monthlyData : List (String × List DayData)) (monthKey : String) :
    Option MonthlyVariation :=
  match lookupBucket monthlyData monthKey with
  | none => none
  | some monthData =>
    if monthData.length = 0 then none
    else
      match sortMonthDataChronologically monthData with
      | [] => none
      | firstDay :: rest =>
        let lastDay := rest.getLastD firstDay
        let firstPrice := jsPriceOf firstDay
        let lastPrice := jsPriceOf lastDay
        match firstPrice, lastPrice with
        | some fp, some lp =>
          if fp = 0 ∨ lp = 0 then none
          else
            let calculatedVariation := ((lp - fp) / fp) * 100
            match splitDash monthKey with
            | year :: month :: _ =>
              match parseIntJS year, parseIntJS month with
              | some yearNum, some monthNum =>
                if monthNum < 1 ∨ 12 < monthNum then none
                else some { month := getMonthName monthNum, year := yearNum,
                            variation := round2 calculatedVariation,
                            firstDayPrice := fp, lastDayPrice := lp }
              | _, _ => none
            | _ => none
        | _, _ => none

/-- The lexically sorted key list
`Array.from(monthlyData.keys()).sort()` of the service. -/
def sortedKeysOf (monthlyData : List (String × List DayData)) : List String :=
  List.insertionSort (fun a b => strLeB a b = true) (monthlyData.map Prod.fst)

/-- Translation of `FinancialService.calculateMonthlyVariation` (lines 23–72). -/
def calculateMonthlyVariation (data : List DayData) : List MonthlyVariation :=
  if data.length = 0 then []
  else
    let monthlyData := groupDataByMonth data
    (sortedKeysOf monthlyData).foldl (fun variations monthKey =>
      match emitKey monthlyData monthKey with
      | none => variations
      | some v => variations ++ [v]) []

/-- Is a possibly-undefined string falsy (`undefined` or `""`)? -/
def strFalsy : Option String → Bool
  | none => true
  | some s => s = ""

/-- Model of `new Date(x).getTime()` for a possibly-undefined argument
(`new Date(undefined)` is an invalid date). -/
def jsGetTime (x : Option String) : Option Nat := x.bind dateOrd

/-- Translation of `isDateInRange` (`financial.utils.ts` lines 14–22); invalid dates make
both comparisons false, as `NaN` comparisons do. -/
def isDateInRange (date startDate endDate : Option String) : Bool :=
  if strFalsy startDate || strFalsy endDate then true
  else
    match jsGetTime date, jsGetTime startDate, jsGetTime endDate with
    | some t, some s, some e => decide (s ≤ t) && decide (t ≤ e)
    | _, _, _ => false

/-- Left-pad a decimal string to two characters with `'0'`
(JS `String(n).padStart(2, '0')`). -/
def padStart2 (s : String) : String :=
  if 2 ≤ s.length then s else if s.length = 1 then "0" ++ s else "00"

/-- The filter predicate of `FinancialService.filterDataByDateRange`
(lines 86–89): first-of-month date of the entry within the range. -/
def inRangeFor (startDate endDate : Option String) (variation : MonthlyVariation) : Bool :=
  let itemDate :=
    toString variation.year ++ "-" ++
      padStart2 (toString (getMonthNumber variation.month)) ++ "-01"
  isDateInRange (some itemDate) startDate endDate

/-- Translation of `FinancialService.filterDataByDateRange` (lines 77–97); the bounds are
`Option String` because the UI may pass `undefined`. -/
def filterDataByDateRange (data : List MonthlyVariation)
    (startDate endDate : Option String) : List MonthlyVariation :=
  if strFalsy startDate || strFalsy endDate ||
      decide (startDate = some "undefined") || decide (endDate = some "") then data
  else
    let filtered := data.filter (inRangeFor startDate endDate)
    if filtered.length = 0 ∧ 0 < data.length then data else filtered

/-- Result record of `calculateVariationStats` (`financial.utils.ts`). -/
structure VariationStats where
  average : ℚ
  max : ℚ
  min : ℚ
  positiveCount : Nat
  negativeCount : Nat
deriving DecidableEq, Repr, Inhabited

/-- Model of `Math.max(...values)` for the non-empty lists this program builds. -/
def jsMaxList (l : List ℚ) : ℚ :=
  match l with
  | [] => 0
  | x :: xs => xs.foldl max x

/-- Model of `Math.min(...values)` for the non-empty lists this program builds. -/
def jsMinList (l : List ℚ) : ℚ :=
  match l with
  | [] => 0
  | x :: xs => xs.foldl min x

/-- Translation of `calculateVariationStats` (`financial.utils.ts` lines 177–199). -/
def calculateVariationStats (variations : List MonthlyVariation) : VariationStats :=
  if variations.length = 0 then
    { average := 0, max := 0, min := 0, positiveCount := 0, negativeCount := 0 }
  else
    let values := variations.map (fun v => jsOrZero v.variation)
    let positiveCount := (values.filter (fun v => decide (0 < v))).length
    let negativeCount := (values.filter (fun v => decide (v < 0))).length
    { average := values.foldl (fun sum val => sum + val) 0 / (values.length : ℚ),
      max := jsMaxList values,
      min := jsMinList values,
      positiveCount := positiveCount,
      negativeCount := negativeCount }

/-- Result record of `FinancialService.calculateStatistics`. -/
structure Statistics where
  average : ℚ
  max : ℚ
  min : ℚ
  positiveCount : Nat
  negativeCount : Nat
  totalMonths : Nat
deriving DecidableEq, Repr, Inhabited

/-- Translation of `FinancialService.calculateStatistics` (lines 140–153). -/
def calculateStatistics (variations : List MonthlyVariation) : Statistics :=
  let stats := calculateVariationStats variations
  { average := stats.average, max := stats.max, min := stats.min,
    positiveCount := stats.positiveCount, negativeCount := stats.negativeCount,
    totalMonths := variations.length }

/-- A flat raw record `{date, price}`. -/
def mkFlat (date : String) (price : ℚ) : DayData :=
  { date := some date, price := some price, attributes := none }

/-- A nested raw record `{attributes: {date, price, ...extra}}`. -/
def mkNested (date : String) (price : ℚ) (extra : List String) : DayData :=
  { date := none, price := none,
    attributes := some { date := some date, price := some price, extra := extra } }

/-!
## Object-identity model of the pipeline

`calculateMonthlyVariation` is claimed not to mutate its input array even
though `sortMonthDataChronologically` sorts in place.  To state that, the
functions are re-run over an explicit object store: `recs` holds every
record object ever allocated (index = allocation order) and `arrs` holds
every array object as a list of record indices.  The caller's input array
is array `0`, holding indices `0, …, n-1` into the original records.
-/

/-- Translation of `Map.get` for the month map keyed by array index. -/
def lookupMapNat (m : List (String × Nat)) (k : String) : Option Nat :=
  match m with
  | [] => none
  | (k2, v) :: rest => if k2 = k then some v else lookupMapNat rest k

/-- The JS object store: record objects and array objects, both addressed
by allocation index. -/
structure JSHeap where
  recs : List DayData
  arrs : List (List Nat)
deriving Repr

/-- Dereference a record index. -/
def heapReadRec (h : JSHeap) (i : Nat) : DayData := h.recs.getD i {}

/-- One `data.forEach` step of `groupDataByMonth` over the store: reads the
input record, allocates the fresh canonical record, and pushes its index
onto the month bucket array (allocating the bucket on first use).  The
month map carries array indices instead of arrays. -/
def groupStepH (st : JSHeap × List (String × Nat)) (rid : Nat) :
    JSHeap × List (String × Nat) :=
  let h := st.1
  let m := st.2
  let day := heapReadRec h rid
  match jsDateOf day with
  | none => (h, m)
  | some date =>
    if date = "" then (h, m)
    else
      let price := jsPriceOf day
      match splitDash date with
      | year :: month :: _ =>
        let monthKey := year ++ "-" ++ month
        let newRec : DayData :=
          { date := some date, price := some (jsOrZeroOpt price), attributes := none }
        let newRecId := h.recs.length
        let h1 : JSHeap := { h with recs := h.recs ++ [newRec] }
        match lookupMapNat m monthKey with
        | some arrId =>
          ({ h1 with arrs := h1.arrs.set arrId (h1.arrs.getD arrId [] ++ [newRecId]) }, m)
        | none =>
          let newArrId := h1.arrs.length
          ({ h1 with arrs := h1.arrs ++ [[newRecId]] }, m ++ [(monthKey, newArrId)])
      | _ => (h, m)

/-- Translation of `groupDataByMonth` over the store, applied to the array at `dataArr`. -/
def groupDataByMonthH (h : JSHeap) (dataArr : Nat) : JSHeap × List (String × Nat) :=
  (h.arrs.getD dataArr []).foldl groupStepH (h, [])

/-- Translation of `sortMonthDataChronologically` over the store: the in-place
`monthData.sort(...)`, overwriting the array object at `arrId`. -/
def sortMonthDataChronologicallyH (h : JSHeap) (arrId : Nat) : JSHeap :=
  let ids := h.arrs.getD arrId []
  let sorted := List.insertionSort
    (fun a b => chronoLe (heapReadRec h a) (heapReadRec h b) = true) ids
  { h with arrs := h.arrs.set arrId sorted }

/-- The per-month-key loop body of `calculateMonthlyVariation` over the
store (sorting the bucket array in place, then reading first/last). -/
def emitKeyH (st : JSHeap × List MonthlyVariation) (m : List (String × Nat))
    (monthKey : String) : JSHeap × List MonthlyVariation :=
  let h := st.1
  let variations := st.2
  match lookupMapNat m monthKey with
  | none => (h, variations)
  | some arrId =>
    if (h.arrs.getD arrId []).length = 0 then (h, variations)
    else
      let h1 := sortMonthDataChronologicallyH h arrId
      match h1.arrs.getD arrId [] with
      | [] => (h1, variations)
      | fid :: rest =>
        let firstDay := heapReadRec h1 fid
        let lastDay := heapReadRec h1 (rest.getLastD fid)
        match jsPriceOf firstDay, jsPriceOf lastDay with
        | some fp, some lp =>
          if fp = 0 ∨ lp = 0 then (h1, variations)
          else
            let calculatedVariation := ((lp - fp) / fp) * 100
            match splitDash monthKey with
            | year :: month :: _ =>
              match parseIntJS year, parseIntJS month with
              | some yearNum, some monthNum =>
                if monthNum < 1 ∨ 12 < monthNum then (h1, variations)
                else
                  (h1, variations ++
                    [{ month := getMonthName monthNum, year := yearNum,
                       variation := round2 calculatedVariation,
                       firstDayPrice := fp, lastDayPrice := lp }])
              | _, _ => (h1, variations)
            | _ => (h1, variations)
        | _, _ => (h1, variations)

/-- Translation of `FinancialService.calculateMonthlyVariation` over the store. -/
def calculateMonthlyVariationH (h : JSHeap) (dataArr : Nat) :
    JSHeap × List MonthlyVariation :=
  if (h.arrs.getD dataArr []).length = 0 then (h, [])
  else
    let grouped := groupDataByMonthH h dataArr
    let m := grouped.2
    let sortedKeys := List.insertionSort (fun a b => strLeB a b = true) (m.map Prod.fst)
    sortedKeys.foldl (fun st monthKey => emitKeyH st m monthKey) (grouped.1, [])

/-- The store for a caller-owned input list: the records themselves, and
one array (index `0`) listing them in order. -/
def initialHeap (input : List DayData) : JSHeap :=
  { recs := input, arrs := [List.range input.length] }

/-- The ordinal date key a canonical bucket record is sorted by. -/
def chronoKey (a : DayData) : Nat := dateNum (sortDateKey a)

/-- The key shape `"YYYY-MM"` (four digits, dash, two digits). -/
def validKey (k : String) : Bool :=
  match k.data with
  | [a, b, c, d, h, e, f] =>
    isDig a && isDig b && isDig c && isDig d && decide (h = '-') && isDig e && isDig f
  | _ => false

/-- Numeric year of a `"YYYY-MM"` key. -/
def keyYearVal (k : String) : Nat :=
  match k.data with
  | [a, b, c, d, _, _, _] =>
    ((digToNat a * 10 + digToNat b) * 10 + digToNat c) * 10 + digToNat d
  | _ => 0

/-- Numeric month of a `"YYYY-MM"` key. -/
def keyMonthVal (k : String) : Nat :=
  match k.data with
  | [_, _, _, _, _, e, f] => 10 * digToNat e + digToNat f
  | _ => 0

/-- Lemma: `round2` is rounding to the nearest multiple of `1/100`
(ties toward positive infinity). -/
theorem round2_eq_round (x : ℚ) : round2 x = ((round (x * 100) : ℤ) : ℚ) / 100 := by
  rw [round_eq, Rat.floor_def]
  rfl

/-!
## Character and string-order lemmas
-/

theorem charLt_iff_toNat (a b : Char) : a < b ↔ a.toNat < b.toNat := Iff.rfl

theorem charLe_iff_toNat (a b : Char) : a ≤ b ↔ a.toNat ≤ b.toNat := Iff.rfl

theorem charEq_iff_toNat (a b : Char) : a = b ↔ a.toNat = b.toNat := by
  constructor
  · intro h; rw [h]
  · intro h
    exact Char.eq_of_val_eq (UInt32.toNat.inj h)

theorem isDig_iff (c : Char) : isDig c = true ↔ 48 ≤ c.toNat ∧ c.toNat ≤ 57 := by
  simp only [isDig, Bool.and_eq_true, decide_eq_true_eq, charLe_iff_toNat]
  rfl

theorem digToNat_lt_iff (a b : Char) (ha : isDig a = true) (hb : isDig b = true) :
    digToNat a < digToNat b ↔ a < b := by
  rw [isDig_iff] at ha hb
  rw [charLt_iff_toNat]
  unfold digToNat
  omega

theorem digToNat_le9 (c : Char) (h : isDig c = true) : digToNat c ≤ 9 := by
  rw [isDig_iff] at h; unfold digToNat; omega

theorem digEq_iff (a b : Char) (ha : isDig a = true) (hb : isDig b = true) :
    a = b ↔ digToNat a = digToNat b := by
  rw [isDig_iff] at ha hb
  rw [charEq_iff_toNat]
  unfold digToNat
  omega

theorem isDig_ne_dash (c : Char) (h : isDig c = true) : ¬(c = '-') := by
  rw [isDig_iff] at h
  intro hc
  subst hc
  simp at h

theorem charListLt_irrefl (l : List Char) : charListLt l l = false := by
  induction l with
  | nil => rfl
  | cons a as ih => simp [charListLt, ih]

theorem charListLt_trichotomy (a b : List Char) :
    charListLt a b = true ∨ a = b ∨ charListLt b a = true := by
  induction a generalizing b with
  | nil => cases b <;> simp [charListLt]
  | cons x xs ih =>
    cases b with
    | nil => simp [charListLt]
    | cons y ys =>
      by_cases hxy : x = y
      · subst hxy
        rcases ih ys with h | h | h
        · left; simp [charListLt, h]
        · right; left; rw [h]
        · right; right; simp [charListLt, h]
      · rcases lt_trichotomy x y with h | h | h
        · left; simp [charListLt, hxy, h]
        · exact absurd h hxy
        · right; right
          simp [charListLt, Ne.symm hxy, h]

theorem charListLt_asymm (a b : List Char) (h : charListLt a b = true) :
    charListLt b a = false := by
  induction a generalizing b with
  | nil => cases b <;> simp_all [charListLt]
  | cons x xs ih =>
    cases b with
    | nil => simp_all [charListLt]
    | cons y ys =>
      by_cases hxy : x = y
      · subst hxy
        simp only [charListLt, if_pos rfl] at h ⊢
        exact ih ys h
      · simp only [charListLt, if_neg hxy, decide_eq_true_eq] at h
        simp only [charListLt, if_neg (Ne.symm hxy), decide_eq_false_iff_not]
        exact not_lt_of_lt h

theorem charListLt_trans (a b c : List Char) (hab : charListLt a b = true)
    (hbc : charListLt b c = true) : charListLt a c = true := by
  induction a generalizing b c with
  | nil =>
    cases b with
    | nil => simp_all [charListLt]
    | cons y ys => cases c with
      | nil => simp_all [charListLt]
      | cons z zs => simp [charListLt]
  | cons x xs ih =>
    cases b with
    | nil => simp_all [charListLt]
    | cons y ys =>
      cases c with
      | nil => simp_all [charListLt]
      | cons z zs =>
        by_cases hxy : x = y <;> by_cases hyz : y = z
        · subst hxy; subst hyz
          simp only [charListLt, if_pos rfl] at hab hbc ⊢
          exact ih ys zs hab hbc
        · subst hxy
          simp_all [charListLt]
        · subst hyz
          simp_all [charListLt]
        · simp only [charListLt, if_neg hxy, decide_eq_true_eq] at hab
          simp only [charListLt, if_neg hyz, decide_eq_true_eq] at hbc
          have hxz : x < z := lt_trans hab hbc
          simp [charListLt, ne_of_lt hxz, hxz]

theorem stringEq_of_data (a b : String) (h : a.data = b.data) : a = b := by
  cases a
  cases b
  exact congrArg String.mk h

theorem strLeB_total (a b : String) : strLeB a b = true ∨ strLeB b a = true := by
  unfold strLeB
  rcases charListLt_trichotomy a.data b.data with h | h | h
  · left
    simp [charListLt_asymm _ _ h]
  · left
    rw [h]
    simp [charListLt_irrefl]
  · right
    simp [charListLt_asymm _ _ h]

theorem strLeB_trans (a b c : String) (hab : strLeB a b = true)
    (hbc : strLeB b c = true) : strLeB a c = true := by
  unfold strLeB at hab hbc ⊢
  simp only [Bool.not_eq_true', Bool.not_eq_false] at hab hbc ⊢
  rw [Bool.eq_false_iff] at hab hbc ⊢
  intro hca
  rcases charListLt_trichotomy a.data b.data with h | h | h
  · exact hbc (charListLt_trans _ _ _ hca h)
  · rw [h] at hca
    exact hbc hca
  · exact hab h

/-!
## Association-list (JS `Map`) lemmas
-/

theorem groupStep_eq_of_none (m : List (String × List DayData)) (day : DayData)
    (hd : jsDateOf day = none) : groupStep m day = m := by
  unfold groupStep
  rw [hd]

theorem groupStep_eq_of_empty (m : List (String × List DayData)) (day : DayData)
    (date : String) (hd : jsDateOf day = some date) (he : date = "") :
    groupStep m day = m := by
  unfold groupStep
  rw [hd]
  dsimp only
  rw [if_pos he]

theorem groupStep_eq_of_nil (m : List (String × List DayData)) (day : DayData)
    (date : String) (hd : jsDateOf day = some date) (he : ¬(date = ""))
    (hs : splitDash date = []) : groupStep m day = m := by
  unfold groupStep
  rw [hd]
  dsimp only
  rw [if_neg he, hs]

theorem groupStep_eq_of_one (m : List (String × List DayData)) (day : DayData)
    (date x : String) (hd : jsDateOf day = some date) (he : ¬(date = ""))
    (hs : splitDash date = [x]) : groupStep m day = m := by
  unfold groupStep
  rw [hd]
  dsimp only
  rw [if_neg he, hs]

theorem groupStep_eq_of_insert (m : List (String × List DayData)) (day : DayData)
    (date y mo : String) (rest : List String) (hd : jsDateOf day = some date)
    (he : ¬(date = "")) (hs : splitDash date = y :: mo :: rest) :
    groupStep m day = insertBucket m (y ++ "-" ++ mo)
      { date := some date, price := some (jsOrZeroOpt (jsPriceOf day)), attributes := none } := by
  unfold groupStep
  rw [hd]
  dsimp only
  rw [if_neg he, hs]

theorem insertBucket_fst (m : List (String × List DayData)) (k : String) (v : DayData) :
    (insertBucket m k v).map Prod.fst =
      if k ∈ m.map Prod.fst then m.map Prod.fst else m.map Prod.fst ++ [k] := by
  induction m with
  | nil => simp [insertBucket]
  | cons p rest ih =>
    obtain ⟨k2, vs⟩ := p
    by_cases hk : k2 = k
    · subst hk
      simp [insertBucket]
    · simp only [insertBucket, if_neg hk, List.map_cons, ih]
      by_cases hmem : k ∈ rest.map Prod.fst
      · simp [hmem, List.mem_cons, Ne.symm hk]
      · simp [hmem, List.mem_cons, Ne.symm hk]

theorem insertBucket_nodup (m : List (String × List DayData)) (k : String) (v : DayData)
    (h : (m.map Prod.fst).Nodup) : ((insertBucket m k v).map Prod.fst).Nodup := by
  rw [insertBucket_fst]
  by_cases hmem : k ∈ m.map Prod.fst
  · simpa [hmem] using h
  · simpa [hmem, List.nodup_append] using h

theorem mem_insertBucket_rec (m : List (String × List DayData)) (k : String) (v : DayData) :
    ∀ p ∈ insertBucket m k v, ∀ r ∈ p.2,
      (p.1 = k ∧ r = v) ∨ ∃ q ∈ m, q.1 = p.1 ∧ r ∈ q.2 := by
  induction m with
  | nil =>
    intro p hp r hr
    simp only [insertBucket, List.mem_singleton] at hp
    subst hp
    simp only [List.mem_singleton] at hr
    exact Or.inl ⟨rfl, hr⟩
  | cons q rest ih =>
    obtain ⟨k2, vs⟩ := q
    intro p hp r hr
    by_cases hk : k2 = k
    · subst hk
      simp only [insertBucket, if_pos rfl] at hp
      cases hp with
      | head =>
        rcases List.mem_append.mp hr with h | h
        · exact Or.inr ⟨(k2, vs), List.mem_cons_self _ _, rfl, h⟩
        · simp only [List.mem_singleton] at h
          exact Or.inl ⟨rfl, h⟩
      | tail b hp =>
        exact Or.inr ⟨p, List.mem_cons_of_mem _ hp, rfl, hr⟩
    · simp only [insertBucket, if_neg hk] at hp
      cases hp with
      | head =>
        exact Or.inr ⟨(k2, vs), List.mem_cons_self _ _, rfl, hr⟩
      | tail b hp =>
        rcases ih p hp r hr with h | ⟨q2, hq2, hq2a, hq2b⟩
        · exact Or.inl h
        · exact Or.inr ⟨q2, List.mem_cons_of_mem _ hq2, hq2a, hq2b⟩

theorem lookupBucket_mem (m : List (String × List DayData)) (k : String) :
    ∀ b, lookupBucket m k = some b → (k, b) ∈ m := by
  induction m with
  | nil =>
    intro b h
    simp [lookupBucket] at h
  | cons q rest ih =>
    obtain ⟨k2, vs⟩ := q
    intro b h
    simp only [lookupBucket] at h
    split at h
    · next hk =>
      injection h with h2
      subst h2
      subst hk
      exact List.mem_cons_self _ _
    · next hk =>
      exact List.mem_cons_of_mem _ (ih b h)

theorem groupStep_rec_inv (Q : String → DayData → Prop)
    (m : List (String × List DayData)) (day : DayData)
    (hm : ∀ p ∈ m, ∀ r ∈ p.2, Q p.1 r)
    (hday : ∀ date y mo rest, jsDateOf day = some date → ¬(date = "") →
      splitDash date = y :: mo :: rest →
      Q (y ++ "-" ++ mo)
        { date := some date, price := some (jsOrZeroOpt (jsPriceOf day)), attributes := none }) :
    ∀ p ∈ groupStep m day, ∀ r ∈ p.2, Q p.1 r := by
  cases hd : jsDateOf day with
  | none =>
    rw [groupStep_eq_of_none m day hd]
    exact hm
  | some date =>
    by_cases hempty : date = ""
    · rw [groupStep_eq_of_empty m day date hd hempty]
      exact hm
    · cases hsp : splitDash date with
      | nil =>
        rw [groupStep_eq_of_nil m day date hd hempty hsp]
        exact hm
      | cons y tail =>
        cases tail with
        | nil =>
          rw [groupStep_eq_of_one m day date y hd hempty hsp]
          exact hm
        | cons mo rest =>
          rw [groupStep_eq_of_insert m day date y mo rest hd hempty hsp]
          intro p hp r hr
          rcases mem_insertBucket_rec _ _ _ p hp r hr with ⟨hpk, hrv⟩ | ⟨q, hq, hq1, hq2⟩
          · rw [hpk, hrv]
            exact hday date y mo rest hd hempty hsp
          · rw [← hq1]
            exact hm q hq r hq2

theorem groupData_foldl_rec_inv (Q : String → DayData → Prop)
    (data : List DayData) (m0 : List (String × List DayData))
    (hm : ∀ p ∈ m0, ∀ r ∈ p.2, Q p.1 r)
    (hdata : ∀ day ∈ data, ∀ date y mo rest, jsDateOf day = some date → ¬(date = "") →
      splitDash date = y :: mo :: rest →
      Q (y ++ "-" ++ mo)
        { date := some date, price := some (jsOrZeroOpt (jsPriceOf day)), attributes := none }) :
    ∀ p ∈ data.foldl groupStep m0, ∀ r ∈ p.2, Q p.1 r := by
  induction data generalizing m0 with
  | nil => exact hm
  | cons day rest ih =>
    rw [List.foldl_cons]
    refine ih (groupStep m0 day) ?_ ?_
    · exact groupStep_rec_inv Q m0 day hm
        (fun date y mo r2 hd he hs => hdata day (List.mem_cons_self _ _) date y mo r2 hd he hs)
    · exact fun day2 hday2 => hdata day2 (List.mem_cons_of_mem _ hday2)

theorem groupData_rec_inv (Q : String → DayData → Prop) (data : List DayData)
    (hdata : ∀ day ∈ data, ∀ date y mo rest, jsDateOf day = some date → ¬(date = "") →
      splitDash date = y :: mo :: rest →
      Q (y ++ "-" ++ mo)
        { date := some date, price := some (jsOrZeroOpt (jsPriceOf day)), attributes := none }) :
    ∀ p ∈ groupDataByMonth data, ∀ r ∈ p.2, Q p.1 r :=
  groupData_foldl_rec_inv Q data [] (by simp) hdata

theorem groupStep_fst_sub (m : List (String × List DayData)) (day : DayData) (k : String)
    (hk : k ∈ (groupStep m day).map Prod.fst) :
    k ∈ m.map Prod.fst ∨ ∃ date y mo rest, jsDateOf day = some date ∧ ¬(date = "") ∧
      splitDash date = y :: mo :: rest ∧ k = y ++ "-" ++ mo := by
  cases hd : jsDateOf day with
  | none =>
    rw [groupStep_eq_of_none m day hd] at hk
    exact Or.inl hk
  | some date =>
    by_cases hempty : date = ""
    · rw [groupStep_eq_of_empty m day date hd hempty] at hk
      exact Or.inl hk
    · cases hsp : splitDash date with
      | nil =>
        rw [groupStep_eq_of_nil m day date hd hempty hsp] at hk
        exact Or.inl hk
      | cons y tail =>
        cases tail with
        | nil =>
          rw [groupStep_eq_of_one m day date y hd hempty hsp] at hk
          exact Or.inl hk
        | cons mo rest =>
          rw [groupStep_eq_of_insert m day date y mo rest hd hempty hsp,
            insertBucket_fst] at hk
          by_cases hmem : (y ++ "-" ++ mo) ∈ m.map Prod.fst
          · rw [if_pos hmem] at hk
            exact Or.inl hk
          · rw [if_neg hmem] at hk
            rcases List.mem_append.mp hk with h | h
            · exact Or.inl h
            · simp only [List.mem_singleton] at h
              exact Or.inr ⟨date, y, mo, rest, rfl, hempty, hsp, h⟩

theorem groupData_foldl_key_origin (data : List DayData)
    (m0 : List (String × List DayData)) (k : String)
    (hk : k ∈ (data.foldl groupStep m0).map Prod.fst) :
    k ∈ m0.map Prod.fst ∨ ∃ day ∈ data, ∃ date y mo rest, jsDateOf day = some date ∧
      ¬(date = "") ∧ splitDash date = y :: mo :: rest ∧ k = y ++ "-" ++ mo := by
  induction data generalizing m0 with
  | nil => exact Or.inl hk
  | cons day rest ih =>
    rw [List.foldl_cons] at hk
    rcases ih (groupStep m0 day) hk with h | ⟨day2, hday2, h⟩
    · rcases groupStep_fst_sub m0 day k h with h2 | ⟨date, y, mo, r2, h2⟩
      · exact Or.inl h2
      · exact Or.inr ⟨day, List.mem_cons_self _ _, date, y, mo, r2, h2⟩
    · exact Or.inr ⟨day2, List.mem_cons_of_mem _ hday2, h⟩

theorem groupData_key_origin (data : List DayData) (k : String)
    (hk : k ∈ (groupDataByMonth data).map Prod.fst) :
    ∃ day ∈ data, ∃ date y mo rest, jsDateOf day = some date ∧
      ¬(date = "") ∧ splitDash date = y :: mo :: rest ∧ k = y ++ "-" ++ mo := by
  rcases groupData_foldl_key_origin data [] k hk with h | h
  · simp at h
  · exact h

theorem groupStep_nodup (m : List (String × List DayData)) (day : DayData)
    (h : (m.map Prod.fst).Nodup) : ((groupStep m day).map Prod.fst).Nodup := by
  cases hd : jsDateOf day with
  | none =>
    rw [groupStep_eq_of_none m day hd]
    exact h
  | some date =>
    by_cases hempty : date = ""
    · rw [groupStep_eq_of_empty m day date hd hempty]
      exact h
    · cases hsp : splitDash date with
      | nil =>
        rw [groupStep_eq_of_nil m day date hd hempty hsp]
        exact h
      | cons y tail =>
        cases tail with
        | nil =>
          rw [groupStep_eq_of_one m day date y hd hempty hsp]
          exact h
        | cons mo rest =>
          rw [groupStep_eq_of_insert m day date y mo rest hd hempty hsp]
          exact insertBucket_nodup _ _ _ h

theorem groupData_nodup (data : List DayData) :
    ((groupDataByMonth data).map Prod.fst).Nodup := by
  have aux : ∀ (l : List DayData) (m0 : List (String × List DayData)),
      (m0.map Prod.fst).Nodup → ((l.foldl groupStep m0).map Prod.fst).Nodup := by
    intro l
    induction l with
    | nil => exact fun _ h => h
    | cons day rest ih =>
      intro m0 h
      rw [List.foldl_cons]
      exact ih (groupStep m0 day) (groupStep_nodup m0 day h)
  exact aux data [] (by simp)

/-!
## The per-key emission and the shape of `calculateMonthlyVariation`
-/

theorem emitKey_some (G : List (String × List DayData)) (k : String) (mv : MonthlyVariation)
    (h : emitKey G k = some mv) :
    ∃ monthData firstDay rest,
      lookupBucket G k = some monthData ∧
      ¬(monthData.length = 0) ∧
      sortMonthDataChronologically monthData = firstDay :: rest ∧
      ∃ fp lp, jsPriceOf firstDay = some fp ∧ jsPriceOf (rest.getLastD firstDay) = some lp ∧
        ¬(fp = 0 ∨ lp = 0) ∧
        ∃ year month tail yearNum monthNum,
          splitDash k = year :: month :: tail ∧
          parseIntJS year = some yearNum ∧ parseIntJS month = some monthNum ∧
          ¬(monthNum < 1 ∨ 12 < monthNum) ∧
          mv = { month := getMonthName monthNum, year := yearNum,
                 variation := round2 (((lp - fp) / fp) * 100),
                 firstDayPrice := fp, lastDayPrice := lp } := by
  unfold emitKey at h
  cases hlb : lookupBucket G k with
  | none =>
    rw [hlb] at h
    simp at h
  | some monthData =>
    rw [hlb] at h
    dsimp only at h
    by_cases hlen : monthData.length = 0
    · rw [if_pos hlen] at h
      simp at h
    · rw [if_neg hlen] at h
      cases hsort : sortMonthDataChronologically monthData with
      | nil =>
        rw [hsort] at h
        simp at h
      | cons firstDay rest =>
        rw [hsort] at h
        dsimp only at h
        cases hfp : jsPriceOf firstDay with
        | none =>
          rw [hfp] at h
          cases hlp : jsPriceOf (rest.getLastD firstDay) <;> rw [hlp] at h <;> simp at h
        | some fp =>
          rw [hfp] at h
          cases hlp : jsPriceOf (rest.getLastD firstDay) with
          | none =>
            rw [hlp] at h
            simp at h
          | some lp =>
            rw [hlp] at h
            dsimp only at h
            by_cases hnz : fp = 0 ∨ lp = 0
            · rw [if_pos hnz] at h
              simp at h
            · rw [if_neg hnz] at h
              cases hsp : splitDash k with
              | nil =>
                rw [hsp] at h
                simp at h
              | cons year tail1 =>
                cases tail1 with
                | nil =>
                  rw [hsp] at h
                  simp at h
                | cons month tail =>
                  rw [hsp] at h
                  dsimp only at h
                  cases hyear : parseIntJS year with
                  | none =>
                    rw [hyear] at h
                    cases hmonth : parseIntJS month <;> rw [hmonth] at h <;> simp at h
                  | some yearNum =>
                    rw [hyear] at h
                    cases hmonth : parseIntJS month with
                    | none =>
                      rw [hmonth] at h
                      simp at h
                    | some monthNum =>
                      rw [hmonth] at h
                      dsimp only at h
                      by_cases hrange : monthNum < 1 ∨ 12 < monthNum
                      · rw [if_pos hrange] at h
                        simp at h
                      · rw [if_neg hrange] at h
                        injection h with h2
                        exact ⟨monthData, firstDay, rest, rfl, hlen, hsort, fp, lp,
                          hfp, hlp, hnz, year, month, tail, yearNum, monthNum, rfl,
                          hyear, hmonth, hrange, h2.symm⟩

theorem foldl_emit_eq_filterMap (f : String → Option MonthlyVariation)
    (l : List String) (acc : List MonthlyVariation) :
    l.foldl (fun variations monthKey =>
      match f monthKey with
      | none => variations
      | some v => variations ++ [v]) acc = acc ++ l.filterMap f := by
  induction l generalizing acc with
  | nil => simp
  | cons x xs ih =>
    cases hf : f x with
    | none => simp [List.foldl_cons, hf, ih, List.filterMap_cons]
    | some v => simp [List.foldl_cons, hf, ih, List.filterMap_cons]

theorem calculateMonthlyVariation_eq (data : List DayData) :
    calculateMonthlyVariation data =
      (sortedKeysOf (groupDataByMonth data)).filterMap (emitKey (groupDataByMonth data)) := by
  unfold calculateMonthlyVariation
  by_cases hd : data.length = 0
  · rw [if_pos hd]
    have hnil : data = [] := List.length_eq_zero.mp hd
    subst hnil
    rfl
  · rw [if_neg hd]
    dsimp only
    rw [foldl_emit_eq_filterMap]
    simp

/-!
## Small evaluation lemmas
-/

theorem round2_zero : round2 0 = 0 := by
  with_unfolding_all rfl

theorem jsOrZero_pos (x : ℚ) : decide (0 < jsOrZero x) = decide (0 < x) := by
  unfold jsOrZero
  by_cases hx : x = 0
  · subst hx
    simp
  · rw [if_neg hx]

theorem jsOrZero_neg (x : ℚ) : decide (jsOrZero x < 0) = decide (x < 0) := by
  unfold jsOrZero
  by_cases hx : x = 0
  · subst hx
    simp
  · rw [if_neg hx]

/-!
## Claim theorems (first group)
-/

set_option maxRecDepth 200000 in
/-- C1: every emitted month's `variation` is the two-decimal rounding of
`((lastDayPrice - firstDayPrice) / firstDayPrice) * 100`, and the
four-record scenario of the specification produces exactly the two
expected `MonthlyVariation` values. -/
theorem C1_variation_formula :
    (∀ (data : List DayData) (mv : MonthlyVariation), mv ∈ calculateMonthlyVariation data →
      mv.variation = round2 (((mv.lastDayPrice - mv.firstDayPrice) / mv.firstDayPrice) * 100)) ∧
    calculateMonthlyVariation
        [mkFlat "2023-01-05" 1000, mkFlat "2023-01-28" 1050,
         mkFlat "2023-02-03" 1050, mkFlat "2023-02-25" 1029] =
      [{ month := "Ene", year := 2023, variation := 5, firstDayPrice := 1000,
         lastDayPrice := 1050 },
       { month := "Feb", year := 2023, variation := -2, firstDayPrice := 1050,
         lastDayPrice := 1029 }] := by
  constructor
  · intro data mv hmv
    rw [calculateMonthlyVariation_eq] at hmv
    rcases List.mem_filterMap.mp hmv with ⟨k, hk, hek⟩
    rcases emitKey_some _ _ _ hek with ⟨monthData, firstDay, rest, hlb, hlen, hsort, fp, lp,
      hfp, hlp, hnz, year, month, tail, yearNum, monthNum, hsp, hyear, hmonth, hrange, hmv2⟩
    rw [hmv2]
  · with_unfolding_all decide

set_option maxRecDepth 200000 in
/-- C1 witness: the first-conjunct formula instantiated on the January
entry of the concrete scenario. -/
theorem C1_variation_formula_witness :
    (MonthlyVariation.mk "Ene" 2023 5 1000 1050).variation =
      round2 ((((MonthlyVariation.mk "Ene" 2023 5 1000 1050).lastDayPrice -
        (MonthlyVariation.mk "Ene" 2023 5 1000 1050).firstDayPrice) /
        (MonthlyVariation.mk "Ene" 2023 5 1000 1050).firstDayPrice) * 100) :=
  C1_variation_formula.1
    [mkFlat "2023-01-05" 1000, mkFlat "2023-01-28" 1050,
     mkFlat "2023-02-03" 1050, mkFlat "2023-02-25" 1029]
    (MonthlyVariation.mk "Ene" 2023 5 1000 1050)
    (by with_unfolding_all decide)

/-- C4: whenever the date filter would remove every entry of a non-empty
variation list, `filterDataByDateRange` returns the whole input instead. -/
theorem C4_fallback_on_empty_filter (data : List MonthlyVariation)
    (startDate endDate : Option String) (hne : data ≠ [])
    (hempty : data.filter (inRangeFor startDate endDate) = []) :
    filterDataByDateRange data startDate endDate = data := by
  unfold filterDataByDateRange
  split
  · rfl
  · dsimp only
    rw [hempty, if_pos ⟨rfl, List.length_pos.mpr hne⟩]

set_option maxRecDepth 200000 in
/-- C4 witness: a 2024 range over the single January-2023 entry filters
everything out, and the original list is returned. -/
theorem C4_fallback_on_empty_filter_witness :
    filterDataByDateRange
      [{ month := "Ene", year := 2023, variation := 5, firstDayPrice := 1000,
         lastDayPrice := 1050 }] (some "2024-01-01") (some "2024-12-31") =
      [{ month := "Ene", year := 2023, variation := 5, firstDayPrice := 1000,
         lastDayPrice := 1050 }] :=
  C4_fallback_on_empty_filter _ _ _ (by simp) (by with_unfolding_all decide)

/-- C5: a missing, empty, or literal `"undefined"` bound (on either side)
makes `filterDataByDateRange` return its input unchanged.  For `startDate`
this is the explicit guard; for `endDate = "undefined"` it holds because
the invalid date makes the range predicate universally false and the
empty-filter fallback then restores the input. -/
theorem C5_no_filter_on_degenerate_bounds (data : List MonthlyVariation)
    (startDate endDate : Option String)
    (h : startDate = none ∨ startDate = some "" ∨ startDate = some "undefined" ∨
         endDate = none ∨ endDate = some "" ∨ endDate = some "undefined") :
    filterDataByDateRange data startDate endDate = data := by
  unfold filterDataByDateRange
  by_cases hg : (strFalsy startDate || strFalsy endDate ||
      decide (startDate = some "undefined") || decide (endDate = some "")) = true
  · rw [if_pos hg]
  · rw [if_neg hg]
    simp only [Bool.or_eq_true, decide_eq_true_eq, not_or] at hg
    obtain ⟨⟨⟨hs1, hs2⟩, hs3⟩, hs4⟩ := hg
    have hend : endDate = some "undefined" := by
      rcases h with h | h | h | h | h | h
      · rw [h] at hs1
        simp [strFalsy] at hs1
      · rw [h] at hs1
        simp [strFalsy] at hs1
      · exact absurd h hs3
      · rw [h] at hs2
        simp [strFalsy] at hs2
      · exact absurd h hs4
      · exact h
    subst hend
    dsimp only
    have hfil : data.filter (inRangeFor startDate (some "undefined")) = [] := by
      rw [List.filter_eq_nil_iff]
      intro v hv
      unfold inRangeFor isDateInRange
      dsimp only
      have hfalsy : (strFalsy startDate || strFalsy (some "undefined")) = false := by
        have h1 : strFalsy startDate = false := by
          cases hzz : strFalsy startDate
          · rfl
          · exact absurd hzz hs1
        rw [h1]
        rfl
      rw [if_neg (by rw [hfalsy]; exact Bool.false_ne_true)]
      have h3 : jsGetTime (some "undefined") = none := by decide
      rw [h3]
      cases jsGetTime (some (toString v.year ++ "-" ++
          padStart2 (toString (getMonthNumber v.month)) ++ "-01")) <;>
        cases jsGetTime startDate <;> simp
    rw [hfil]
    cases data with
    | nil => simp
    | cons v rest => rw [if_pos ⟨rfl, by simp⟩]

set_option maxRecDepth 200000 in
/-- C5 witness: the interesting case, `endDate = "undefined"` with a
well-formed `startDate`, on a one-entry list. -/
theorem C5_no_filter_on_degenerate_bounds_witness :
    filterDataByDateRange
      [{ month := "Ene", year := 2023, variation := 5, firstDayPrice := 1000,
         lastDayPrice := 1050 }] (some "2023-01-01") (some "undefined") =
      [{ month := "Ene", year := 2023, variation := 5, firstDayPrice := 1000,
         lastDayPrice := 1050 }] :=
  C5_no_filter_on_degenerate_bounds _ _ _ (by simp)

/-- C7: a month bucket holding exactly one record emits (when it emits) a
variation of `0.00`, with `firstDayPrice`, `lastDayPrice` and the record's
own price all equal. -/
theorem C7_single_record_month (data : List DayData) (k : String) (r : DayData)
    (mv : MonthlyVariation)
    (hlb : lookupBucket (groupDataByMonth data) k = some [r])
    (hek : emitKey (groupDataByMonth data) k = some mv) :
    mv.variation = 0 ∧ mv.firstDayPrice = mv.lastDayPrice ∧
      jsPriceOf r = some mv.firstDayPrice := by
  rcases emitKey_some _ _ _ hek with ⟨monthData, firstDay, rest, hlb2, hlen, hsort, fp, lp,
    hfp, hlp, hnz, year, month, tail, yearNum, monthNum, hsp, hyear, hmonth, hrange, hmv⟩
  rw [hlb] at hlb2
  injection hlb2 with h2
  subst h2
  have hsingle : sortMonthDataChronologically [r] = [r] := by
    simp [sortMonthDataChronologically]
  rw [hsingle] at hsort
  injection hsort with hfirst hrest
  subst hfirst
  subst hrest
  simp only [List.getLastD_nil] at hlp
  rw [hfp] at hlp
  injection hlp with hfl
  subst hfl
  rw [hmv]
  refine ⟨?_, rfl, hfp⟩
  simp only [sub_self, zero_div, zero_mul, round2_zero]

set_option maxRecDepth 200000 in
/-- C7 witness: a one-record January bucket emits variation `0` with equal
first/last prices. -/
theorem C7_single_record_month_witness :
    (MonthlyVariation.mk "Ene" 2023 0 1000 1000).variation = 0 ∧
      (MonthlyVariation.mk "Ene" 2023 0 1000 1000).firstDayPrice =
        (MonthlyVariation.mk "Ene" 2023 0 1000 1000).lastDayPrice ∧
      jsPriceOf { date := some "2023-01-05", price := some 1000, attributes := none } =
        some (MonthlyVariation.mk "Ene" 2023 0 1000 1000).firstDayPrice :=
  C7_single_record_month [mkFlat "2023-01-05" 1000] "2023-01"
    { date := some "2023-01-05", price := some 1000, attributes := none }
    (MonthlyVariation.mk "Ene" 2023 0 1000 1000)
    (by with_unfolding_all decide) (by with_unfolding_all decide)

/-- C8: `calculateStatistics` on the empty list is the all-zero record,
and on any list `positiveCount`/`negativeCount` count exactly the entries
with strictly positive/strictly negative variation (zero-variation entries
count in neither). -/
theorem C8_statistics_counts :
    calculateStatistics [] =
      { average := 0, max := 0, min := 0, positiveCount := 0, negativeCount := 0,
        totalMonths := 0 } ∧
    ∀ vs : List MonthlyVariation,
      (calculateStatistics vs).positiveCount =
        (vs.filter (fun v => decide (0 < v.variation))).length ∧
      (calculateStatistics vs).negativeCount =
        (vs.filter (fun v => decide (v.variation < 0))).length := by
  refine ⟨rfl, ?_⟩
  intro vs
  unfold calculateStatistics calculateVariationStats
  by_cases h : vs.length = 0
  · rw [if_pos h]
    have hnil : vs = [] := List.length_eq_zero.mp h
    subst hnil
    simp
  · rw [if_neg h]
    dsimp only
    constructor
    · rw [List.filter_map, List.length_map]
      congr 1
      apply List.filter_congr
      intro v hv
      exact jsOrZero_pos v.variation
    · rw [List.filter_map, List.length_map]
      congr 1
      apply List.filter_congr
      intro v hv
      exact jsOrZero_neg v.variation

/-- C10: flat fields shadow nested `attributes` fields during
normalization: a non-empty flat `date` wins over `attributes.date`, a
present flat `price` (including `0`) wins over `attributes.price`, and the
nested values are used exactly when the flat ones are absent (or, for the
date, the empty string). -/
theorem C10_flat_precedence (s : String) (dOpt : Option String) (pOpt : Option ℚ)
    (a : RawAttrs) (p : ℚ) :
    (s ≠ "" → jsDateOf { date := some s, price := pOpt, attributes := some a } = some s) ∧
    jsPriceOf { date := dOpt, price := some p, attributes := some a } = some p ∧
    jsDateOf { date := none, price := pOpt, attributes := some a } = a.date ∧
    jsDateOf { date := some "", price := pOpt, attributes := some a } = a.date ∧
    jsPriceOf { date := dOpt, price := none, attributes := some a } = a.price := by
  refine ⟨?_, rfl, rfl, ?_, rfl⟩
  · intro hs
    simp [jsDateOf, jsOrStr, hs]
  · simp [jsDateOf, jsOrStr]

/-- C10 witness: the precedence equations at a concrete record carrying
both flat and nested fields, with flat price `0`. -/
theorem C10_flat_precedence_witness :
    jsDateOf (DayData.mk (some "2023-01-05") (some 0)
        (some (RawAttrs.mk (some "1999-12-31") (some 7) ["net_asset_value"]))) =
      some "2023-01-05" ∧
    jsPriceOf (DayData.mk (some "2023-01-05") (some 0)
        (some (RawAttrs.mk (some "1999-12-31") (some 7) ["net_asset_value"]))) = some 0 :=
  ⟨(C10_flat_precedence "2023-01-05" (some "2023-01-05") (some 0)
      (RawAttrs.mk (some "1999-12-31") (some 7) ["net_asset_value"]) 0).1 (by simp),
   (C10_flat_precedence "2023-01-05" (some "2023-01-05") (some 0)
      (RawAttrs.mk (some "1999-12-31") (some 7) ["net_asset_value"]) 0).2.1⟩

theorem groupStep_nested_flat (m : List (String × List DayData)) (date : String)
    (price : ℚ) (extra : List String) :
    groupStep m (mkNested date price extra) = groupStep m (mkFlat date price) := by
  by_cases hd : date = ""
  · subst hd
    rw [groupStep_eq_of_empty m (mkNested "" price extra) "" rfl rfl,
      groupStep_eq_of_none m (mkFlat "" price) rfl]
  · have h1 : jsDateOf (mkNested date price extra) = some date := rfl
    have h2 : jsDateOf (mkFlat date price) = some date := by
      simp [jsDateOf, jsOrStr, mkFlat, hd]
    have h3 : jsPriceOf (mkNested date price extra) = some price := rfl
    have h4 : jsPriceOf (mkFlat date price) = some price := rfl
    cases hsp : splitDash date with
    | nil =>
      rw [groupStep_eq_of_nil m _ date h1 hd hsp, groupStep_eq_of_nil m _ date h2 hd hsp]
    | cons y tail =>
      cases tail with
      | nil =>
        rw [groupStep_eq_of_one m _ date y h1 hd hsp, groupStep_eq_of_one m _ date y h2 hd hsp]
      | cons mo rest =>
        rw [groupStep_eq_of_insert m _ date y mo rest h1 hd hsp,
          groupStep_eq_of_insert m _ date y mo rest h2 hd hsp, h3, h4]

theorem groupData_nested_flat (rows : List (String × ℚ × List String)) :
    groupDataByMonth (rows.map (fun r => mkNested r.1 r.2.1 r.2.2)) =
      groupDataByMonth (rows.map (fun r => mkFlat r.1 r.2.1)) := by
  unfold groupDataByMonth
  rw [List.foldl_map, List.foldl_map]
  have aux : ∀ (l : List (String × ℚ × List String)) (m0 : List (String × List DayData)),
      l.foldl (fun m r => groupStep m (mkNested r.1 r.2.1 r.2.2)) m0 =
        l.foldl (fun m r => groupStep m (mkFlat r.1 r.2.1)) m0 := by
    intro l
    induction l with
    | nil => intro m0; rfl
    | cons r rest ih =>
      intro m0
      rw [List.foldl_cons, List.foldl_cons, groupStep_nested_flat]
      exact ih _
  exact aux rows []

/-- C6: a nested record `{attributes: {date, price, ...}}` (with arbitrary
extra attribute fields) is grouped exactly like the flat record
`{date, price}`, the whole pipeline gives identical output on
nested-shaped and flat-shaped versions of the same rows, and the concrete
`{attributes:{date:"2023-03-10", price:500}}` record of the specification
normalizes like its flat version. -/
theorem C6_nested_flat_equivalence :
    (∀ (date : String) (price : ℚ) (extra : List String),
      groupDataByMonth [mkNested date price extra] = groupDataByMonth [mkFlat date price]) ∧
    (∀ rows : List (String × ℚ × List String),
      calculateMonthlyVariation (rows.map (fun r => mkNested r.1 r.2.1 r.2.2)) =
        calculateMonthlyVariation (rows.map (fun r => mkFlat r.1 r.2.1))) ∧
    groupDataByMonth [mkNested "2023-03-10" 500 ["net_asset_value"]] =
      groupDataByMonth [mkFlat "2023-03-10" 500] := by
  refine ⟨?_, ?_, ?_⟩
  · intro date price extra
    exact groupData_nested_flat [(date, price, extra)]
  · intro rows
    unfold calculateMonthlyVariation
    rw [groupData_nested_flat, List.length_map, List.length_map]
  · exact groupData_nested_flat [("2023-03-10", 500, ["net_asset_value"])]

/-!
## Chronological sort: behaviour on valid dates
-/

theorem chronoLe_eq_of_valid (a b : DayData) (ha : validISO (sortDateKey a) = true)
    (hb : validISO (sortDateKey b) = true) :
    chronoLe a b = decide (chronoKey a ≤ chronoKey b) := by
  unfold chronoLe
  have h1 : dateOrd (sortDateKey a) = some (dateNum (sortDateKey a)) := by
    unfold dateOrd
    rw [if_pos ha]
  have h2 : dateOrd (sortDateKey b) = some (dateNum (sortDateKey b)) := by
    unfold dateOrd
    rw [if_pos hb]
  rw [h1, h2]
  rfl

theorem orderedInsert_congr {α : Type} (r r2 : α → α → Prop)
    [DecidableRel r] [DecidableRel r2] (a : α) (l : List α)
    (h : ∀ b ∈ l, r a b ↔ r2 a b) :
    List.orderedInsert r a l = List.orderedInsert r2 a l := by
  induction l with
  | nil => rfl
  | cons b t ih =>
    simp only [List.orderedInsert]
    by_cases hr : r a b
    · rw [if_pos hr, if_pos ((h b (List.mem_cons_self _ _)).mp hr)]
    · rw [if_neg hr, if_neg (fun hc => hr ((h b (List.mem_cons_self _ _)).mpr hc)),
        ih (fun c hc => h c (List.mem_cons_of_mem _ hc))]

theorem insertionSort_congr {α : Type} (r r2 : α → α → Prop)
    [DecidableRel r] [DecidableRel r2] (l : List α)
    (h : ∀ a ∈ l, ∀ b ∈ l, r a b ↔ r2 a b) :
    List.insertionSort r l = List.insertionSort r2 l := by
  induction l with
  | nil => rfl
  | cons a t ih =>
    simp only [List.insertionSort]
    rw [ih (fun x hx y hy => h x (List.mem_cons_of_mem _ hx) y (List.mem_cons_of_mem _ hy))]
    apply orderedInsert_congr
    intro b hb
    have hbmem : b ∈ t := (List.mem_insertionSort r2).mp hb
    exact h a (List.mem_cons_self _ _) b (List.mem_cons_of_mem _ hbmem)

theorem sortMonth_valid_eq (monthData : List DayData)
    (hvalid : ∀ r ∈ monthData, validISO (sortDateKey r) = true) :
    sortMonthDataChronologically monthData =
      List.insertionSort (fun a b => chronoKey a ≤ chronoKey b) monthData := by
  unfold sortMonthDataChronologically
  apply insertionSort_congr
  intro a ha b hb
  rw [chronoLe_eq_of_valid a b (hvalid a ha) (hvalid b hb)]
  simp

theorem sortMonth_head_min (monthData : List DayData)
    (hvalid : ∀ r ∈ monthData, validISO (sortDateKey r) = true)
    (firstDay : DayData) (rest : List DayData)
    (h : sortMonthDataChronologically monthData = firstDay :: rest) :
    firstDay ∈ monthData ∧ ∀ r ∈ monthData, chronoKey firstDay ≤ chronoKey r := by
  rw [sortMonth_valid_eq monthData hvalid] at h
  haveI : IsTotal DayData (fun a b => chronoKey a ≤ chronoKey b) :=
    ⟨fun a b => Nat.le_total _ _⟩
  haveI : IsTrans DayData (fun a b => chronoKey a ≤ chronoKey b) :=
    ⟨fun a b c => Nat.le_trans⟩
  have hperm := List.perm_insertionSort
    (fun a b => chronoKey a ≤ chronoKey b) monthData
  have hsorted := List.sorted_insertionSort
    (fun a b => chronoKey a ≤ chronoKey b) monthData
  rw [h] at hperm hsorted
  constructor
  · exact hperm.mem_iff.mp (List.mem_cons_self _ _)
  · intro r hr
    have hr2 : r ∈ firstDay :: rest := hperm.symm.mem_iff.mp hr
    rcases List.mem_cons.mp hr2 with hr3 | hr3
    · rw [hr3]
    · exact List.rel_of_sorted_cons hsorted r hr3

theorem bucket_valid (data : List DayData)
    (hv : ∀ day ∈ data, Option.all validISO (jsDateOf day) = true) :
    ∀ p ∈ groupDataByMonth data, ∀ r ∈ p.2, validISO (sortDateKey r) = true := by
  apply groupData_rec_inv (fun _ r => validISO (sortDateKey r) = true)
  intro day hday date y mo rest hd he hs
  have hvd : validISO date = true := by
    have h2 := hv day hday
    rw [hd] at h2
    simpa [Option.all] using h2
  have hkey : sortDateKey
      { date := some date, price := some (jsOrZeroOpt (jsPriceOf day)),
        attributes := none } = date := by
    simp [sortDateKey, jsDateOf, jsOrStr, he]
  rw [hkey]
  exact hvd

/-- C3: on well-formed dates, every emitted month has non-zero (hence
non-falsy) first and last prices — so the variation divisor is never zero —
and its `firstDayPrice` is the price of a minimum-date record of the
month's bucket. -/
theorem C3_first_price_valid_and_minimal (data : List DayData)
    (hv : ∀ day ∈ data, Option.all validISO (jsDateOf day) = true) :
    ∀ mv ∈ calculateMonthlyVariation data,
      mv.firstDayPrice ≠ 0 ∧ mv.lastDayPrice ≠ 0 ∧
      ∃ k monthData, lookupBucket (groupDataByMonth data) k = some monthData ∧
        emitKey (groupDataByMonth data) k = some mv ∧
        ∃ r ∈ monthData, jsPriceOf r = some mv.firstDayPrice ∧
          ∀ r2 ∈ monthData, dateNum (sortDateKey r) ≤ dateNum (sortDateKey r2) := by
  intro mv hmv
  rw [calculateMonthlyVariation_eq] at hmv
  rcases List.mem_filterMap.mp hmv with ⟨k, hk, hek⟩
  rcases emitKey_some _ _ _ hek with ⟨monthData, firstDay, rest, hlb, hlen, hsort, fp, lp,
    hfp, hlp, hnz, year, month, tail, yearNum, monthNum, hsp, hyear, hmonth, hrange, hmv2⟩
  rw [not_or] at hnz
  have hbval : ∀ r ∈ monthData, validISO (sortDateKey r) = true :=
    fun r hr => bucket_valid data hv (k, monthData) (lookupBucket_mem _ _ _ hlb) r hr
  rcases sortMonth_head_min monthData hbval firstDay rest hsort with ⟨hfmem, hmin⟩
  subst hmv2
  exact ⟨hnz.1, hnz.2, k, monthData, hlb, hek, firstDay, hfmem, hfp, hmin⟩

set_option maxRecDepth 400000 in
/-- C3 witness: the property instantiated on the January entry of the
concrete four-record scenario. -/
theorem C3_first_price_valid_and_minimal_witness :
    (MonthlyVariation.mk "Ene" 2023 5 1000 1050).firstDayPrice ≠ 0 ∧
    (MonthlyVariation.mk "Ene" 2023 5 1000 1050).lastDayPrice ≠ 0 ∧
    ∃ k monthData,
      lookupBucket (groupDataByMonth
        [mkFlat "2023-01-05" 1000, mkFlat "2023-01-28" 1050,
         mkFlat "2023-02-03" 1050, mkFlat "2023-02-25" 1029]) k = some monthData ∧
      emitKey (groupDataByMonth
        [mkFlat "2023-01-05" 1000, mkFlat "2023-01-28" 1050,
         mkFlat "2023-02-03" 1050, mkFlat "2023-02-25" 1029]) k =
          some (MonthlyVariation.mk "Ene" 2023 5 1000 1050) ∧
      ∃ r ∈ monthData,
        jsPriceOf r = some (MonthlyVariation.mk "Ene" 2023 5 1000 1050).firstDayPrice ∧
        ∀ r2 ∈ monthData, dateNum (sortDateKey r) ≤ dateNum (sortDateKey r2) :=
  C3_first_price_valid_and_minimal
    [mkFlat "2023-01-05" 1000, mkFlat "2023-01-28" 1050,
     mkFlat "2023-02-03" 1050, mkFlat "2023-02-25" 1029]
    (by with_unfolding_all decide)
    (MonthlyVariation.mk "Ene" 2023 5 1000 1050)
    (by with_unfolding_all decide)

/-!
## Digit strings, keys, and the lexicographic order bridge
-/

theorem isDig_not_ws (c : Char) (h : isDig c = true) :
    ¬(c = ' ' ∨ c = '\t' ∨ c = '\n' ∨ c = '\r') := by
  rw [isDig_iff] at h
  intro hc
  rcases hc with hc | hc | hc | hc <;> (subst hc; simp at h)

theorem isDig_ne_minus (c : Char) (h : isDig c = true) : ¬(c = '-') :=
  isDig_ne_dash c h

theorem isDig_ne_plus (c : Char) (h : isDig c = true) : ¬(c = '+') := by
  rw [isDig_iff] at h
  intro hc
  subst hc
  simp at h

theorem digitsVal_cons (c : Char) (cs : List Char) :
    digitsVal (c :: cs) = if isDig c then some (digitsPrefixVal (c :: cs) 0) else none := rfl

theorem charListLt_cons_eq (a b : Char) (as bs : List Char) :
    charListLt (a :: as) (b :: bs) = if a = b then charListLt as bs else decide (a < b) := rfl

theorem parseIntJS_digits (c : Char) (t : List Char) (hc : isDig c = true) :
    parseIntJS (String.mk (c :: t)) = some (Int.ofNat (digitsPrefixVal (c :: t) 0)) := by
  unfold parseIntJS
  have hdata : (String.mk (c :: t)).data = c :: t := rfl
  have hws : ¬(decide (c = ' ' ∨ c = '\t' ∨ c = '\n' ∨ c = '\r') = true) := by
    simp only [decide_eq_true_eq]
    exact isDig_not_ws c hc
  rw [hdata, List.dropWhile_cons, if_neg hws]
  dsimp only
  rw [if_neg (isDig_ne_minus c hc), if_neg (isDig_ne_plus c hc), digitsVal_cons, if_pos hc]
  rfl

theorem digitsPrefixVal_two (a b : Char) (ha : isDig a = true) (hb : isDig b = true) :
    digitsPrefixVal [a, b] 0 = 10 * digToNat a + digToNat b := by
  simp only [digitsPrefixVal, ha, hb, if_true]
  omega

theorem digitsPrefixVal_four (a b c d : Char) (ha : isDig a = true) (hb : isDig b = true)
    (hc : isDig c = true) (hd : isDig d = true) :
    digitsPrefixVal [a, b, c, d] 0 =
      ((digToNat a * 10 + digToNat b) * 10 + digToNat c) * 10 + digToNat d := by
  simp only [digitsPrefixVal, ha, hb, hc, hd, if_true]
  omega

theorem splitDashAux_no_dash (l acc : List Char) (h : ∀ c ∈ l, ¬(c = '-')) :
    splitDashAux l acc = [acc.reverse ++ l] := by
  induction l generalizing acc with
  | nil => simp [splitDashAux]
  | cons c t ih =>
    simp only [splitDashAux]
    rw [if_neg (h c (List.mem_cons_self _ _)), ih (c :: acc)
      (fun x hx => h x (List.mem_cons_of_mem _ hx))]
    simp

theorem splitDashAux_append (l rest acc : List Char) (h : ∀ c ∈ l, ¬(c = '-')) :
    splitDashAux (l ++ '-' :: rest) acc = (acc.reverse ++ l) :: splitDashAux rest [] := by
  induction l generalizing acc with
  | nil => simp [splitDashAux]
  | cons c t ih =>
    simp only [List.cons_append, splitDashAux, List.append_eq]
    rw [if_neg (h c (List.mem_cons_self _ _)), ih (c :: acc)
      (fun x hx => h x (List.mem_cons_of_mem _ hx))]
    simp


theorem validISO_elim (s : String) (h : validISO s = true) :
    ∃ y1 y2 y3 y4 m1 m2 d1 d2,
      s.data = [y1, y2, y3, y4, '-', m1, m2, '-', d1, d2] ∧
      isDig y1 = true ∧ isDig y2 = true ∧ isDig y3 = true ∧ isDig y4 = true ∧
      isDig m1 = true ∧ isDig m2 = true ∧ isDig d1 = true ∧ isDig d2 = true ∧
      1 ≤ 10 * digToNat m1 + digToNat m2 ∧ 10 * digToNat m1 + digToNat m2 ≤ 12 := by
  unfold validISO at h
  split at h
  · next y1 y2 y3 y4 h1c m1 m2 h2c d1 d2 heq =>
    simp only [Bool.and_eq_true, decide_eq_true_eq] at h
    have hy1 : isDig y1 = true := by tauto
    have hy2 : isDig y2 = true := by tauto
    have hy3 : isDig y3 = true := by tauto
    have hy4 : isDig y4 = true := by tauto
    have hm1 : isDig m1 = true := by tauto
    have hm2 : isDig m2 = true := by tauto
    have hd1 : isDig d1 = true := by tauto
    have hd2 : isDig d2 = true := by tauto
    have hmlo : 1 ≤ 10 * digToNat m1 + digToNat m2 := by tauto
    have hmhi : 10 * digToNat m1 + digToNat m2 ≤ 12 := by tauto
    have hdash1 : h1c = '-' := by tauto
    have hdash2 : h2c = '-' := by tauto
    subst hdash1
    subst hdash2
    exact ⟨y1, y2, y3, y4, m1, m2, d1, d2, heq, hy1, hy2, hy3, hy4, hm1, hm2, hd1, hd2,
      hmlo, hmhi⟩
  · simp at h

theorem splitDash_of_date_shape (s : String) (y1 y2 y3 y4 m1 m2 d1 d2 : Char)
    (hdata : s.data = [y1, y2, y3, y4, '-', m1, m2, '-', d1, d2])
    (hy1 : isDig y1 = true) (hy2 : isDig y2 = true) (hy3 : isDig y3 = true)
    (hy4 : isDig y4 = true) (hm1 : isDig m1 = true) (hm2 : isDig m2 = true)
    (hd1 : isDig d1 = true) (hd2 : isDig d2 = true) :
    splitDash s = [String.mk [y1, y2, y3, y4], String.mk [m1, m2], String.mk [d1, d2]] := by
  have nd4 : ∀ c ∈ ([y1, y2, y3, y4] : List Char), ¬(c = '-') := by
    intro c hc
    simp only [List.mem_cons, List.not_mem_nil, or_false] at hc
    rcases hc with h | h | h | h
    · subst h; exact isDig_ne_dash _ hy1
    · subst h; exact isDig_ne_dash _ hy2
    · subst h; exact isDig_ne_dash _ hy3
    · subst h; exact isDig_ne_dash _ hy4
  have nd2 : ∀ c ∈ ([m1, m2] : List Char), ¬(c = '-') := by
    intro c hc
    simp only [List.mem_cons, List.not_mem_nil, or_false] at hc
    rcases hc with h | h
    · subst h; exact isDig_ne_dash _ hm1
    · subst h; exact isDig_ne_dash _ hm2
  have ndd : ∀ c ∈ ([d1, d2] : List Char), ¬(c = '-') := by
    intro c hc
    simp only [List.mem_cons, List.not_mem_nil, or_false] at hc
    rcases hc with h | h
    · subst h; exact isDig_ne_dash _ hd1
    · subst h; exact isDig_ne_dash _ hd2
  have e1 : ([y1, y2, y3, y4, '-', m1, m2, '-', d1, d2] : List Char) =
      [y1, y2, y3, y4] ++ '-' :: ([m1, m2] ++ '-' :: [d1, d2]) := by
    simp
  unfold splitDash
  rw [hdata, e1, splitDashAux_append _ _ _ nd4, splitDashAux_append _ _ _ nd2,
    splitDashAux_no_dash _ _ ndd]
  simp

theorem splitDash_of_key_shape (s : String) (a b c d e f : Char)
    (hdata : s.data = [a, b, c, d, '-', e, f])
    (ha : isDig a = true) (hb : isDig b = true) (hc : isDig c = true)
    (hd : isDig d = true) (he : isDig e = true) (hf : isDig f = true) :
    splitDash s = [String.mk [a, b, c, d], String.mk [e, f]] := by
  have nd4 : ∀ x ∈ ([a, b, c, d] : List Char), ¬(x = '-') := by
    intro x hx
    simp only [List.mem_cons, List.not_mem_nil, or_false] at hx
    rcases hx with h | h | h | h
    · subst h; exact isDig_ne_dash _ ha
    · subst h; exact isDig_ne_dash _ hb
    · subst h; exact isDig_ne_dash _ hc
    · subst h; exact isDig_ne_dash _ hd
  have nd2 : ∀ x ∈ ([e, f] : List Char), ¬(x = '-') := by
    intro x hx
    simp only [List.mem_cons, List.not_mem_nil, or_false] at hx
    rcases hx with h | h
    · subst h; exact isDig_ne_dash _ he
    · subst h; exact isDig_ne_dash _ hf
  have e1 : ([a, b, c, d, '-', e, f] : List Char) = [a, b, c, d] ++ '-' :: [e, f] := by
    simp
  unfold splitDash
  rw [hdata, e1, splitDashAux_append _ _ _ nd4, splitDashAux_no_dash _ _ nd2]
  simp

theorem key_data (y1 y2 y3 y4 m1 m2 : Char) :
    (String.mk [y1, y2, y3, y4] ++ "-" ++ String.mk [m1, m2]).data =
      [y1, y2, y3, y4, '-', m1, m2] := rfl

theorem validKey_build (y1 y2 y3 y4 m1 m2 : Char)
    (hy1 : isDig y1 = true) (hy2 : isDig y2 = true) (hy3 : isDig y3 = true)
    (hy4 : isDig y4 = true) (hm1 : isDig m1 = true) (hm2 : isDig m2 = true) :
    validKey (String.mk [y1, y2, y3, y4] ++ "-" ++ String.mk [m1, m2]) = true := by
  unfold validKey
  rw [key_data]
  simp [hy1, hy2, hy3, hy4, hm1, hm2]

theorem validKey_elim (k : String) (h : validKey k = true) :
    ∃ a b c d e f, k.data = [a, b, c, d, '-', e, f] ∧
      isDig a = true ∧ isDig b = true ∧ isDig c = true ∧ isDig d = true ∧
      isDig e = true ∧ isDig f = true := by
  unfold validKey at h
  split at h
  · next a b c d hc e f heq =>
    simp only [Bool.and_eq_true, decide_eq_true_eq] at h
    have ha : isDig a = true := by tauto
    have hb : isDig b = true := by tauto
    have hcc : isDig c = true := by tauto
    have hdd : isDig d = true := by tauto
    have hee : isDig e = true := by tauto
    have hff : isDig f = true := by tauto
    have hdash : hc = '-' := by tauto
    subst hdash
    exact ⟨a, b, c, d, e, f, heq, ha, hb, hcc, hdd, hee, hff⟩
  · simp at h

theorem keyYearVal_data (k : String) (a b c d e f : Char)
    (hdata : k.data = [a, b, c, d, '-', e, f]) :
    keyYearVal k = ((digToNat a * 10 + digToNat b) * 10 + digToNat c) * 10 + digToNat d := by
  unfold keyYearVal
  rw [hdata]

theorem keyMonthVal_data (k : String) (a b c d e f : Char)
    (hdata : k.data = [a, b, c, d, '-', e, f]) :
    keyMonthVal k = 10 * digToNat e + digToNat f := by
  unfold keyMonthVal
  rw [hdata]

theorem getMonthNumber_getMonthName (n : Int) (h1 : 1 ≤ n) (h2 : n ≤ 12) :
    getMonthNumber (getMonthName n) = n := by
  interval_cases n <;> rfl

/-- For a `"YYYY-MM"`-shaped key, a successful emission records exactly the
key's numeric year and month. -/
theorem emitKey_year_month (G : List (String × List DayData)) (k : String)
    (mv : MonthlyVariation) (hvk : validKey k = true) (h : emitKey G k = some mv) :
    mv.year = Int.ofNat (keyYearVal k) ∧
      getMonthNumber mv.month = Int.ofNat (keyMonthVal k) := by
  rcases validKey_elim k hvk with ⟨a, b, c, d, e, f, hdata, ha, hb, hcc, hdd, hee, hff⟩
  rcases emitKey_some _ _ _ h with ⟨monthData, firstDay, rest, hlb, hlen, hsort, fp, lp,
    hfp, hlp, hnz, year, month, tail, yearNum, monthNum, hsp, hyear, hmonth, hrange, hmv⟩
  rw [splitDash_of_key_shape k a b c d e f hdata ha hb hcc hdd hee hff] at hsp
  injection hsp with hy hrest
  injection hrest with hm htail
  subst hy
  subst hm
  rw [parseIntJS_digits a [b, c, d] ha] at hyear
  rw [parseIntJS_digits e [f] hee] at hmonth
  injection hyear with hyv
  injection hmonth with hmv2
  have hyval : yearNum = Int.ofNat (keyYearVal k) := by
    rw [keyYearVal_data k a b c d e f hdata, ← digitsPrefixVal_four a b c d ha hb hcc hdd]
    exact hyv.symm
  have hmval : monthNum = Int.ofNat (keyMonthVal k) := by
    rw [keyMonthVal_data k a b c d e f hdata, ← digitsPrefixVal_two e f hee hff]
    exact hmv2.symm
  rw [not_or, not_lt, not_lt] at hrange
  constructor
  · rw [hmv]
    exact hyval
  · rw [hmv]
    have hmn : getMonthNumber (getMonthName monthNum) = monthNum :=
      getMonthNumber_getMonthName monthNum hrange.1 hrange.2
    rw [hmn]
    exact hmval

/-- Lexicographic character order on two `"YYYY-MM"`-shaped character lists
implies strict `(year, month)` order of their numeric values. -/
theorem keyLt_bridge (a1 b1 c1 d1 e1 f1 a2 b2 c2 d2 e2 f2 : Char)
    (ha1 : isDig a1 = true) (hb1 : isDig b1 = true) (hc1 : isDig c1 = true)
    (hd1 : isDig d1 = true) (he1 : isDig e1 = true) (hf1 : isDig f1 = true)
    (ha2 : isDig a2 = true) (hb2 : isDig b2 = true) (hc2 : isDig c2 = true)
    (hd2 : isDig d2 = true) (he2 : isDig e2 = true) (hf2 : isDig f2 = true)
    (hlt : charListLt [a1, b1, c1, d1, '-', e1, f1] [a2, b2, c2, d2, '-', e2, f2] = true) :
    ((digToNat a1 * 10 + digToNat b1) * 10 + digToNat c1) * 10 + digToNat d1 <
        ((digToNat a2 * 10 + digToNat b2) * 10 + digToNat c2) * 10 + digToNat d2 ∨
      (((digToNat a1 * 10 + digToNat b1) * 10 + digToNat c1) * 10 + digToNat d1 =
          ((digToNat a2 * 10 + digToNat b2) * 10 + digToNat c2) * 10 + digToNat d2 ∧
        10 * digToNat e1 + digToNat f1 < 10 * digToNat e2 + digToNat f2) := by
  have Bb1 := digToNat_le9 b1 hb1
  have Bc1 := digToNat_le9 c1 hc1
  have Bd1 := digToNat_le9 d1 hd1
  have Bf1 := digToNat_le9 f1 hf1
  have Bb2 := digToNat_le9 b2 hb2
  have Bc2 := digToNat_le9 c2 hc2
  have Bd2 := digToNat_le9 d2 hd2
  have Bf2 := digToNat_le9 f2 hf2
  by_cases h1 : a1 = a2
  · subst h1
    rw [charListLt_cons_eq, if_pos rfl] at hlt
    by_cases h2 : b1 = b2
    · subst h2
      rw [charListLt_cons_eq, if_pos rfl] at hlt
      by_cases h3 : c1 = c2
      · subst h3
        rw [charListLt_cons_eq, if_pos rfl] at hlt
        by_cases h4 : d1 = d2
        · subst h4
          rw [charListLt_cons_eq, if_pos rfl, charListLt_cons_eq, if_pos rfl] at hlt
          by_cases h5 : e1 = e2
          · subst h5
            rw [charListLt_cons_eq, if_pos rfl] at hlt
            by_cases h6 : f1 = f2
            · subst h6
              rw [charListLt_cons_eq, if_pos rfl] at hlt
              exact absurd hlt (by simp [charListLt])
            · rw [charListLt_cons_eq, if_neg h6] at hlt
              have hf := (digToNat_lt_iff f1 f2 hf1 hf2).mpr (of_decide_eq_true hlt)
              omega
          · rw [charListLt_cons_eq, if_neg h5] at hlt
            have he := (digToNat_lt_iff e1 e2 he1 he2).mpr (of_decide_eq_true hlt)
            omega
        · rw [charListLt_cons_eq, if_neg h4] at hlt
          have hd := (digToNat_lt_iff d1 d2 hd1 hd2).mpr (of_decide_eq_true hlt)
          omega
      · rw [charListLt_cons_eq, if_neg h3] at hlt
        have hc := (digToNat_lt_iff c1 c2 hc1 hc2).mpr (of_decide_eq_true hlt)
        omega
    · rw [charListLt_cons_eq, if_neg h2] at hlt
      have hb := (digToNat_lt_iff b1 b2 hb1 hb2).mpr (of_decide_eq_true hlt)
      omega
  · rw [charListLt_cons_eq, if_neg h1] at hlt
    have ha := (digToNat_lt_iff a1 a2 ha1 ha2).mpr (of_decide_eq_true hlt)
    omega

theorem groupData_keys_validKey (data : List DayData)
    (hv : ∀ day ∈ data, Option.all validISO (jsDateOf day) = true) :
    ∀ k ∈ (groupDataByMonth data).map Prod.fst, validKey k = true := by
  intro k hk
  rcases groupData_key_origin data k hk with ⟨day, hday, date, y, mo, rest, hd, he, hs, hkey⟩
  have hvd : validISO date = true := by
    have h2 := hv day hday
    rw [hd] at h2
    simpa [Option.all] using h2
  rcases validISO_elim date hvd with ⟨y1, y2, y3, y4, m1, m2, d1, d2, hdata,
    hy1, hy2, hy3, hy4, hm1, hm2, hd1, hd2, hmlo, hmhi⟩
  rw [splitDash_of_date_shape date y1 y2 y3 y4 m1 m2 d1 d2 hdata
    hy1 hy2 hy3 hy4 hm1 hm2 hd1 hd2] at hs
  injection hs with h1 hrest
  injection hrest with h2 hrest2
  subst h1
  subst h2
  rw [hkey]
  exact validKey_build y1 y2 y3 y4 m1 m2 hy1 hy2 hy3 hy4 hm1 hm2

theorem sortedKeys_pairwise_lt (G : List (String × List DayData))
    (hnd : (G.map Prod.fst).Nodup) :
    List.Pairwise (fun k k2 => charListLt k.data k2.data = true) (sortedKeysOf G) := by
  unfold sortedKeysOf
  haveI : IsTotal String (fun a b => strLeB a b = true) := ⟨strLeB_total⟩
  haveI : IsTrans String (fun a b => strLeB a b = true) := ⟨fun a b c => strLeB_trans a b c⟩
  have hsorted := List.sorted_insertionSort (fun a b => strLeB a b = true) (G.map Prod.fst)
  have hperm := List.perm_insertionSort (fun a b => strLeB a b = true) (G.map Prod.fst)
  have hnd2 : (List.insertionSort (fun a b => strLeB a b = true) (G.map Prod.fst)).Nodup :=
    hperm.nodup_iff.mpr hnd
  have hcomb := List.Pairwise.and hsorted hnd2
  refine hcomb.imp ?_
  rintro a b ⟨hle, hne⟩
  rcases charListLt_trichotomy a.data b.data with h | h | h
  · exact h
  · exact absurd (stringEq_of_data a b h) hne
  · unfold strLeB at hle
    rw [h] at hle
    simp at hle

set_option maxRecDepth 400000 in
/-- C2: on non-empty input whose extracted dates are zero-padded
`YYYY-MM-DD` strings, the output of `calculateMonthlyVariation` is strictly
ascending in `(year, month)`. -/
theorem C2_output_sorted (data : List DayData) (hne : data ≠ [])
    (hv : ∀ day ∈ data, Option.all validISO (jsDateOf day) = true) :
    List.Pairwise (fun a b : MonthlyVariation =>
        a.year < b.year ∨ (a.year = b.year ∧
          getMonthNumber a.month < getMonthNumber b.month))
      (calculateMonthlyVariation data) := by
  rw [calculateMonthlyVariation_eq]
  have hkv : ∀ k ∈ ((groupDataByMonth data).map Prod.fst), validKey k = true :=
    groupData_keys_validKey data hv
  have hnd : ((groupDataByMonth data).map Prod.fst).Nodup := groupData_nodup data
  have hpw := sortedKeys_pairwise_lt (groupDataByMonth data) hnd
  have hkv2 : ∀ k ∈ sortedKeysOf (groupDataByMonth data), validKey k = true := by
    intro k hk
    apply hkv
    unfold sortedKeysOf at hk
    exact (List.mem_insertionSort _).mp hk
  have hpw2 : List.Pairwise (fun k k2 => charListLt k.data k2.data = true ∧
      validKey k = true ∧ validKey k2 = true) (sortedKeysOf (groupDataByMonth data)) :=
    hpw.imp_of_mem (fun {a b} ha hb h => ⟨h, hkv2 a ha, hkv2 b hb⟩)
  refine List.Pairwise.filterMap (emitKey (groupDataByMonth data)) ?_ hpw2
  intro k k2 hR mv hmv mv2 hmv2
  obtain ⟨hlt, hvk, hvk2⟩ := hR
  have h1 := emitKey_year_month (groupDataByMonth data) k mv hvk (Option.mem_def.mp hmv)
  have h2 := emitKey_year_month (groupDataByMonth data) k2 mv2 hvk2 (Option.mem_def.mp hmv2)
  rcases validKey_elim k hvk with ⟨a1, b1, c1, d1, e1, f1, hdata1,
    ha1, hb1, hc1, hd1, he1, hf1⟩
  rcases validKey_elim k2 hvk2 with ⟨a2, b2, c2, d2, e2, f2, hdata2,
    ha2, hb2, hc2, hd2, he2, hf2⟩
  rw [hdata1, hdata2] at hlt
  have hbridge := keyLt_bridge a1 b1 c1 d1 e1 f1 a2 b2 c2 d2 e2 f2
    ha1 hb1 hc1 hd1 he1 hf1 ha2 hb2 hc2 hd2 he2 hf2 hlt
  rw [h1.1, h1.2, h2.1, h2.2, keyYearVal_data k a1 b1 c1 d1 e1 f1 hdata1,
    keyYearVal_data k2 a2 b2 c2 d2 e2 f2 hdata2,
    keyMonthVal_data k a1 b1 c1 d1 e1 f1 hdata1,
    keyMonthVal_data k2 a2 b2 c2 d2 e2 f2 hdata2]
  rcases hbridge with hb | ⟨hbe, hbm⟩
  · exact Or.inl (Int.ofNat_lt.mpr hb)
  · exact Or.inr ⟨congrArg Int.ofNat hbe, Int.ofNat_lt.mpr hbm⟩

set_option maxRecDepth 400000 in
/-- C2 witness: the sortedness property instantiated on the concrete
four-record scenario. -/
theorem C2_output_sorted_witness :
    List.Pairwise (fun a b : MonthlyVariation =>
        a.year < b.year ∨ (a.year = b.year ∧
          getMonthNumber a.month < getMonthNumber b.month))
      (calculateMonthlyVariation
        [mkFlat "2023-01-05" 1000, mkFlat "2023-01-28" 1050,
         mkFlat "2023-02-03" 1050, mkFlat "2023-02-25" 1029]) :=
  C2_output_sorted
    [mkFlat "2023-01-05" 1000, mkFlat "2023-01-28" 1050,
     mkFlat "2023-02-03" 1050, mkFlat "2023-02-25" 1029]
    (by simp) (by with_unfolding_all decide)

/-!
## The object-store run: `calculateMonthlyVariation` does not touch the
input array
-/

theorem lookupMapNat_mem (m : List (String × Nat)) (k : String) :
    ∀ v, lookupMapNat m k = some v → (k, v) ∈ m := by
  induction m with
  | nil =>
    intro v h
    simp [lookupMapNat] at h
  | cons q rest ih =>
    obtain ⟨k2, v2⟩ := q
    intro v h
    simp only [lookupMapNat] at h
    split at h
    · next hk =>
      injection h with h2
      subst h2
      subst hk
      exact List.mem_cons_self _ _
    · next hk =>
      exact List.mem_cons_of_mem _ (ih v h)

theorem sortH_facts (h : JSHeap) (arrId : Nat) (hpos : 1 ≤ arrId) :
    (sortMonthDataChronologicallyH h arrId).recs = h.recs ∧
    (sortMonthDataChronologicallyH h arrId).arrs.length = h.arrs.length ∧
    (sortMonthDataChronologicallyH h arrId).arrs.getD 0 [] = h.arrs.getD 0 [] := by
  unfold sortMonthDataChronologicallyH
  refine ⟨rfl, by simp, ?_⟩
  dsimp only
  rw [List.getD_eq_getElem?_getD, List.getD_eq_getElem?_getD,
    List.getElem?_set_ne (by omega)]
  rw [← List.getD_eq_getElem?_getD]

theorem emitKeyH_fst (st : JSHeap × List MonthlyVariation) (m : List (String × Nat))
    (key : String) :
    (emitKeyH st m key).1 = st.1 ∨
    ∃ arrId, lookupMapNat m key = some arrId ∧
      (emitKeyH st m key).1 = sortMonthDataChronologicallyH st.1 arrId := by
  unfold emitKeyH
  cases hlk : lookupMapNat m key with
  | none => exact Or.inl rfl
  | some arrId =>
    dsimp only
    by_cases hz : (st.1.arrs.getD arrId []).length = 0
    · rw [if_pos hz]
      exact Or.inl rfl
    · rw [if_neg hz]
      right
      refine ⟨arrId, rfl, ?_⟩
      repeat (first | rfl | split)

theorem emit_fold_heap (keys : List String) (m : List (String × Nat))
    (st : JSHeap × List MonthlyVariation) (hm : ∀ p ∈ m, 1 ≤ p.2) :
    ((keys.foldl (fun st2 k => emitKeyH st2 m k) st).1.recs = st.1.recs ∧
     (keys.foldl (fun st2 k => emitKeyH st2 m k) st).1.arrs.length = st.1.arrs.length ∧
     (keys.foldl (fun st2 k => emitKeyH st2 m k) st).1.arrs.getD 0 [] =
       st.1.arrs.getD 0 []) := by
  induction keys generalizing st with
  | nil => exact ⟨rfl, rfl, rfl⟩
  | cons k rest ih =>
    rw [List.foldl_cons]
    have hstep : (emitKeyH st m k).1.recs = st.1.recs ∧
        (emitKeyH st m k).1.arrs.length = st.1.arrs.length ∧
        (emitKeyH st m k).1.arrs.getD 0 [] = st.1.arrs.getD 0 [] := by
      rcases emitKeyH_fst st m k with h | ⟨arrId, hlk, h⟩
      · rw [h]
        exact ⟨rfl, rfl, rfl⟩
      · have hpos : 1 ≤ arrId := hm (k, arrId) (lookupMapNat_mem m k arrId hlk)
        rcases sortH_facts st.1 arrId hpos with ⟨f1, f2, f3⟩
        rw [h]
        exact ⟨f1, f2, f3⟩
    rcases ih (emitKeyH st m k) with ⟨i1, i2, i3⟩
    rcases hstep with ⟨s1, s2, s3⟩
    exact ⟨i1.trans s1, i2.trans s2, i3.trans s3⟩

theorem groupStepH_eq_skip (st : JSHeap × List (String × Nat)) (rid : Nat) :
    (jsDateOf (heapReadRec st.1 rid) = none ∨
     jsDateOf (heapReadRec st.1 rid) = some "" ∨
     (∃ date, jsDateOf (heapReadRec st.1 rid) = some date ∧ ¬(date = "") ∧
       (splitDash date = [] ∨ ∃ x, splitDash date = [x]))) →
    groupStepH st rid = st := by
  intro h
  unfold groupStepH
  dsimp only
  rcases h with h | h | ⟨date, hd, he, hs⟩
  · rw [h]
  · rw [h]
    dsimp only
    rw [if_pos rfl]
  · rw [hd]
    dsimp only
    rw [if_neg he]
    rcases hs with hs | ⟨x, hs⟩
    · rw [hs]
    · rw [hs]

theorem groupStepH_eq_existing (st : JSHeap × List (String × Nat)) (rid : Nat)
    (date y mo : String) (rest : List String) (arrId : Nat)
    (hd : jsDateOf (heapReadRec st.1 rid) = some date) (he : ¬(date = ""))
    (hs : splitDash date = y :: mo :: rest)
    (hlk : lookupMapNat st.2 (y ++ "-" ++ mo) = some arrId) :
    groupStepH st rid =
      ({ recs := st.1.recs ++
           [{ date := some date,
              price := some (jsOrZeroOpt (jsPriceOf (heapReadRec st.1 rid))),
              attributes := none }],
         arrs := st.1.arrs.set arrId (st.1.arrs.getD arrId [] ++ [st.1.recs.length]) },
       st.2) := by
  unfold groupStepH
  dsimp only
  rw [hd]
  dsimp only
  rw [if_neg he, hs]
  dsimp only
  rw [hlk]

theorem groupStepH_eq_new (st : JSHeap × List (String × Nat)) (rid : Nat)
    (date y mo : String) (rest : List String)
    (hd : jsDateOf (heapReadRec st.1 rid) = some date) (he : ¬(date = ""))
    (hs : splitDash date = y :: mo :: rest)
    (hlk : lookupMapNat st.2 (y ++ "-" ++ mo) = none) :
    groupStepH st rid =
      ({ recs := st.1.recs ++
           [{ date := some date,
              price := some (jsOrZeroOpt (jsPriceOf (heapReadRec st.1 rid))),
              attributes := none }],
         arrs := st.1.arrs ++ [[st.1.recs.length]] },
       st.2 ++ [(y ++ "-" ++ mo, st.1.arrs.length)]) := by
  unfold groupStepH
  dsimp only
  rw [hd]
  dsimp only
  rw [if_neg he, hs]
  dsimp only
  rw [hlk]

theorem groupStepH_inv (input : List DayData) (st : JSHeap × List (String × Nat))
    (rid : Nat)
    (h1 : ∃ ext, st.1.recs = input ++ ext)
    (h2 : 1 ≤ st.1.arrs.length)
    (h3 : st.1.arrs.getD 0 [] = List.range input.length)
    (h4 : ∀ p ∈ st.2, 1 ≤ p.2) :
    (∃ ext, (groupStepH st rid).1.recs = input ++ ext) ∧
    1 ≤ (groupStepH st rid).1.arrs.length ∧
    (groupStepH st rid).1.arrs.getD 0 [] = List.range input.length ∧
    (∀ p ∈ (groupStepH st rid).2, 1 ≤ p.2) := by
  obtain ⟨ext, hext⟩ := h1
  cases hd : jsDateOf (heapReadRec st.1 rid) with
  | none =>
    rw [groupStepH_eq_skip st rid (Or.inl hd)]
    exact ⟨⟨ext, hext⟩, h2, h3, h4⟩
  | some date =>
    by_cases he : date = ""
    · subst he
      rw [groupStepH_eq_skip st rid (Or.inr (Or.inl hd))]
      exact ⟨⟨ext, hext⟩, h2, h3, h4⟩
    · cases hs : splitDash date with
      | nil =>
        rw [groupStepH_eq_skip st rid (Or.inr (Or.inr ⟨date, hd, he, Or.inl hs⟩))]
        exact ⟨⟨ext, hext⟩, h2, h3, h4⟩
      | cons y tail =>
        cases tail with
        | nil =>
          rw [groupStepH_eq_skip st rid (Or.inr (Or.inr ⟨date, hd, he, Or.inr ⟨y, hs⟩⟩))]
          exact ⟨⟨ext, hext⟩, h2, h3, h4⟩
        | cons mo rest =>
          cases hlk : lookupMapNat st.2 (y ++ "-" ++ mo) with
          | some arrId =>
            rw [groupStepH_eq_existing st rid date y mo rest arrId hd he hs hlk]
            have hpos : 1 ≤ arrId := h4 (y ++ "-" ++ mo, arrId)
              (lookupMapNat_mem st.2 (y ++ "-" ++ mo) arrId hlk)
            refine ⟨⟨ext ++ [{ date := some date, price := some (jsOrZeroOpt (jsPriceOf (heapReadRec st.1 rid))), attributes := none }], by rw [hext]; simp⟩, by simpa using h2, ?_, h4⟩
            dsimp only
            rw [List.getD_eq_getElem?_getD, List.getElem?_set_ne (by omega),
              ← List.getD_eq_getElem?_getD]
            exact h3
          | none =>
            rw [groupStepH_eq_new st rid date y mo rest hd he hs hlk]
            refine ⟨⟨ext ++ [{ date := some date, price := some (jsOrZeroOpt (jsPriceOf (heapReadRec st.1 rid))), attributes := none }], by rw [hext]; simp⟩, ?_, ?_, ?_⟩
            · dsimp only
              rw [List.length_append]
              omega
            · dsimp only
              rw [List.getD_eq_getElem?_getD, List.getElem?_append_left (by omega),
                ← List.getD_eq_getElem?_getD]
              exact h3
            · intro p hp
              rcases List.mem_append.mp hp with hp2 | hp2
              · exact h4 p hp2
              · simp only [List.mem_singleton] at hp2
                subst hp2
                exact h2

theorem group_foldl_inv (input : List DayData) (ids : List Nat)
    (st : JSHeap × List (String × Nat))
    (h1 : ∃ ext, st.1.recs = input ++ ext)
    (h2 : 1 ≤ st.1.arrs.length)
    (h3 : st.1.arrs.getD 0 [] = List.range input.length)
    (h4 : ∀ p ∈ st.2, 1 ≤ p.2) :
    (∃ ext, (ids.foldl groupStepH st).1.recs = input ++ ext) ∧
    1 ≤ (ids.foldl groupStepH st).1.arrs.length ∧
    (ids.foldl groupStepH st).1.arrs.getD 0 [] = List.range input.length ∧
    (∀ p ∈ (ids.foldl groupStepH st).2, 1 ≤ p.2) := by
  induction ids generalizing st with
  | nil => exact ⟨h1, h2, h3, h4⟩
  | cons rid rest ih =>
    rw [List.foldl_cons]
    rcases groupStepH_inv input st rid h1 h2 h3 h4 with ⟨g1, g2, g3, g4⟩
    exact ih (groupStepH st rid) g1 g2 g3 g4

/-- C9: running `calculateMonthlyVariation` over the explicit object store
leaves the caller's input array untouched: afterwards, array `0` still
lists the original record indices `0, …, n-1` in their original order, and
every one of those indices still dereferences to the original record.
Grouping only allocates fresh canonical records and fresh bucket arrays,
and the in-place chronological sort mutates only those bucket arrays. -/
theorem C9_input_not_mutated (input : List DayData) :
    (calculateMonthlyVariationH (initialHeap input) 0).1.arrs.getD 0 [] =
        List.range input.length ∧
    (calculateMonthlyVariationH (initialHeap input) 0).1.recs.take input.length =
        input := by
  unfold calculateMonthlyVariationH
  have hinit1 : (initialHeap input).arrs.getD 0 [] = List.range input.length := rfl
  by_cases hz : (((initialHeap input).arrs.getD 0 []).length = 0)
  · rw [if_pos hz]
    exact ⟨hinit1, by simp [initialHeap]⟩
  · rw [if_neg hz]
    dsimp only
    have hgd : groupDataByMonthH (initialHeap input) 0 =
        List.foldl groupStepH ((initialHeap input), [])
          ((initialHeap input).arrs.getD 0 []) := rfl
    have hg := group_foldl_inv input ((initialHeap input).arrs.getD 0 [])
      ((initialHeap input), []) ⟨[], by simp [initialHeap]⟩ (by simp [initialHeap])
      hinit1 (by simp)
    rw [← hgd] at hg
    rcases hg with ⟨⟨ext, hext⟩, g2, g3, g4⟩
    have hemit := emit_fold_heap
      (List.insertionSort (fun a b => strLeB a b = true)
        ((groupDataByMonthH (initialHeap input) 0).2.map Prod.fst))
      (groupDataByMonthH (initialHeap input) 0).2
      ((groupDataByMonthH (initialHeap input) 0).1, [])
      (by
        intro p hp
        exact g4 p hp)
    rcases hemit with ⟨e1, e2, e3⟩
    constructor
    · rw [e3]
      exact g3
    · rw [e1]
      dsimp only
      rw [hext, List.take_left]
